import Mathlib

/-!
# Verification of the AbhinEngine chess engine core

Shallow embedding of the engine's board representation (`board.rs`), legal
move generation (`movegen.rs`), static evaluation (`eval.rs`) and search
(`search.rs`), together with proofs/refutations of the frozen claims about
the natural-language specification.

Modelling conventions:
* `u8`/`u32`/`u64` values are modelled as `Nat`; where the Rust code can wrap
  (release-mode arithmetic, explicit `wrapping_sub`) the wrap is made explicit
  with `% 256`.  `i32` values are modelled as `Int`; Rust `i32` division
  truncates toward zero, which is `Int.tdiv`.
* The 64-entry square array is a function `Fin 64 → Option ColoredPiece`.
  Rust indexing `squares[i]` panics when `i ≥ 64`; every access the claims
  depend on is guarded in the source (or proven in bounds here), and the
  out-of-bounds case is modelled as `none` / no-op.
* Rust `Vec` push/pop stacks (`history`, `position_hashes`, `rep_table`) are
  modelled as Lean lists with the most recent element at the head.
* Loops that accumulate a score or a move list become folds / sums / list
  concatenations in source order; the unbounded slider walks (bounded by the
  8×8 geometry in the source) take an explicit fuel that dominates the 8-step
  maximum ray length.
-/

namespace AbhinEngine

/-! ## board.rs — data model -/

inductive Color where
  | White
  | Black
deriving DecidableEq, Repr

inductive Piece where
  | Pawn
  | Knight
  | Bishop
  | Rook
  | Queen
  | King
deriving DecidableEq, Repr

structure ColoredPiece where
  piece : Piece
  color : Color
deriving DecidableEq, Repr

structure Move where
  fromSq : Nat
  toSq : Nat
  promotion : Option Piece
  captured : Option Piece
  is_ep : Bool
  is_castle : Bool
deriving DecidableEq, Repr

def opposite (c : Color) : Color :=
  match c with
  | Color.White => Color.Black
  | Color.Black => Color.White

def piece_value (p : Piece) : Int :=
  match p with
  | Piece.Pawn   => 100
  | Piece.Knight => 320
  | Piece.Bishop => 330
  | Piece.Rook   => 500
  | Piece.Queen  => 900
  | Piece.King   => 20000

structure HistoryEntry where
  mv : Move
  castling : Nat
  ep_square : Option Nat
  halfmove : Nat
  hash : Nat
deriving DecidableEq, Repr

abbrev Squares := Fin 64 → Option ColoredPiece

structure Board where
  squares : Squares
  side : Color
  castling : Nat
  ep_square : Option Nat
  halfmove : Nat
  hash : Nat
  history : List HistoryEntry
  position_hashes : List Nat

/-- `squares[i]` read; out-of-bounds (a Rust panic) modelled as `none`. -/
def getSq (s : Squares) (i : Nat) : Option ColoredPiece :=
  if h : i < 64 then s ⟨i, h⟩ else none

/-- `squares[i] = v` write; out-of-bounds (a Rust panic) modelled as no-op. -/
def setSq (s : Squares) (i : Nat) (v : Option ColoredPiece) : Squares :=
  if h : i < 64 then Function.update s ⟨i, h⟩ v else s

instance : DecidableEq Board := fun a b =>
  if h : a.squares = b.squares ∧ a.side = b.side ∧ a.castling = b.castling ∧
      a.ep_square = b.ep_square ∧ a.halfmove = b.halfmove ∧ a.hash = b.hash ∧
      a.history = b.history ∧ a.position_hashes = b.position_hashes then
    isTrue (by cases a; cases b; simp_all)
  else
    isFalse (by intro hh; cases a; cases b; cases hh; simp_all)

def Board.piece_at (b : Board) (sq : Nat) : Option ColoredPiece :=
  getSq b.squares sq

/-- `Board::make_move`.  Mirrors `board.rs` lines 136–222. -/
def makeMove (b : Board) (mv : Move) : Board :=
  let b0 : Board :=
    { b with
      position_hashes := b.hash :: b.position_hashes
      history :=
        { mv := mv, castling := b.castling, ep_square := b.ep_square,
          halfmove := b.halfmove, hash := b.hash } :: b.history }
  match getSq b0.squares mv.fromSq with
  | none => { b0 with side := opposite b0.side }
  | some moving =>
    let sqs :=
      if mv.is_castle then
        let s1 := setSq b0.squares mv.toSq (some moving)
        let s2 := setSq s1 mv.fromSq none
        let rook_from := if mv.fromSq < mv.toSq then (mv.fromSq + 3) % 256 else (mv.fromSq + 252) % 256
        let rook_to := if mv.fromSq < mv.toSq then (mv.fromSq + 1) % 256 else (mv.fromSq + 255) % 256
        if rook_from < 64 ∧ rook_to < 64 then
          let rook := getSq s2 rook_from
          setSq (setSq s2 rook_to rook) rook_from none
        else s2
      else
        let s0 :=
          if mv.is_ep then
            let ep_pawn_sq :=
              if b0.side = Color.White then (mv.toSq + 248) % 256 else (mv.toSq + 8) % 256
            if ep_pawn_sq < 64 then setSq b0.squares ep_pawn_sq none else b0.squares
          else b0.squares
        let s1 := setSq s0 mv.toSq
          (match mv.promotion with
           | some promo => some ⟨promo, moving.color⟩
           | none => some moving)
        setSq s1 mv.fromSq none
    let c1 :=
      if moving.piece = Piece.King then
        if moving.color = Color.White then b0.castling &&& 252 else b0.castling &&& 243
      else b0.castling
    let c2 :=
      if mv.fromSq = 0 then c1 &&& 253
      else if mv.fromSq = 7 then c1 &&& 254
      else if mv.fromSq = 56 then c1 &&& 247
      else if mv.fromSq = 63 then c1 &&& 251
      else c1
    let c3 :=
      if mv.toSq = 0 then c2 &&& 253
      else if mv.toSq = 7 then c2 &&& 254
      else if mv.toSq = 56 then c2 &&& 247
      else if mv.toSq = 63 then c2 &&& 251
      else c2
    let ep1 :=
      if moving.piece = Piece.Pawn then
        if ((mv.toSq : Int) - (mv.fromSq : Int)).natAbs = 16 then
          some (((mv.fromSq + mv.toSq) % 256) / 2)
        else none
      else none
    let hm1 :=
      if moving.piece = Piece.Pawn ∨ mv.captured.isSome ∨ mv.is_ep then 0
      else b0.halfmove + 1
    { b0 with squares := sqs, castling := c3, ep_square := ep1, halfmove := hm1,
              side := opposite b0.side }

/-- `Board::unmake_move`.  Mirrors `board.rs` lines 224–281. -/
def unmakeMove (b : Board) : Board :=
  match b.history with
  | [] => b
  | entry :: rest =>
    let b0 : Board :=
      { b with
        history := rest
        position_hashes := b.position_hashes.tail
        castling := entry.castling
        ep_square := entry.ep_square
        halfmove := entry.halfmove
        hash := entry.hash
        side := opposite b.side }
    let mv := entry.mv
    let moved := getSq b0.squares mv.toSq
    if mv.is_castle then
      let s1 := setSq b0.squares mv.fromSq moved
      let s2 := setSq s1 mv.toSq none
      let rook_from := if mv.fromSq < mv.toSq then (mv.fromSq + 3) % 256 else (mv.fromSq + 252) % 256
      let rook_to := if mv.fromSq < mv.toSq then (mv.fromSq + 1) % 256 else (mv.fromSq + 255) % 256
      let s3 :=
        if rook_from < 64 ∧ rook_to < 64 then
          let rook := getSq s2 rook_to
          setSq (setSq s2 rook_from rook) rook_to none
        else s2
      { b0 with squares := s3 }
    else
      let original_piece :=
        if mv.promotion.isSome then some (⟨Piece.Pawn, b0.side⟩ : ColoredPiece) else moved
      let s1 := setSq b0.squares mv.fromSq original_piece
      if mv.is_ep then
        let s2 := setSq s1 mv.toSq none
        let ep_sq := if b0.side = Color.White then (mv.toSq + 248) % 256 else (mv.toSq + 8) % 256
        let s3 :=
          if ep_sq < 64 then
            setSq s2 ep_sq (some ⟨Piece.Pawn, opposite b0.side⟩)
          else s2
        { b0 with squares := s3 }
      else
        let s2 := setSq s1 mv.toSq (mv.captured.map fun p => (⟨p, opposite b0.side⟩ : ColoredPiece))
        { b0 with squares := s2 }

/-! ## board.rs — attack queries -/

/-- The body of `Board::path_clear`'s while loop, with fuel.  The source loop
walks from `(r, f)` toward `(tr, tf)` one king-step at a time; for the aligned
in-board calls made by `piece_attacks` it takes at most 7 steps, so fuel 8
is never exhausted on those calls. -/
def pathClearAux (s : Squares) (tr tf dr df : Int) : Nat → Int → Int → Bool
  | 0, _, _ => true
  | fuel + 1, r, f =>
    if r = tr ∧ f = tf then true
    else
      let sq := ((r * 8 + f).emod 256).toNat
      if (getSq s sq).isSome then false
      else pathClearAux s tr tf dr df fuel (r + dr) (f + df)

/-- `Board::path_clear` (board.rs lines 354–372). -/
def path_clear (s : Squares) (fromSq toSq : Nat) : Bool :=
  let fr : Int := fromSq / 8
  let ff : Int := fromSq % 8
  let tr : Int := toSq / 8
  let tf : Int := toSq % 8
  let dr := (tr - fr).sign
  let df := (tf - ff).sign
  pathClearAux s tr tf dr df 8 (fr + dr) (ff + df)

/-- `Board::piece_attacks` (board.rs lines 323–352).  The `unwrap` on the
pawn's own square is only reached from `is_attacked` with an occupied
`fromSq`; the `none` arm is modelled arbitrarily as Black's direction. -/
def piece_attacks (s : Squares) (fromSq toSq : Nat) (piece : Piece) : Bool :=
  let fr : Int := fromSq / 8
  let ff : Int := fromSq % 8
  let tr : Int := toSq / 8
  let tf : Int := toSq % 8
  let dr := tr - fr
  let df := tf - ff
  match piece with
  | Piece.Pawn =>
    let dir : Int :=
      match getSq s fromSq with
      | some cp => if cp.color = Color.White then 1 else -1
      | none => -1
    decide (dr = dir ∧ df.natAbs = 1)
  | Piece.Knight =>
    decide ((dr.natAbs = 2 ∧ df.natAbs = 1) ∨ (dr.natAbs = 1 ∧ df.natAbs = 2))
  | Piece.Bishop =>
    decide (dr.natAbs = df.natAbs ∧ dr ≠ 0) && path_clear s fromSq toSq
  | Piece.Rook =>
    decide ((dr = 0 ∨ df = 0) ∧ ¬(dr = 0 ∧ df = 0)) && path_clear s fromSq toSq
  | Piece.Queen =>
    decide ((dr.natAbs = df.natAbs ∨ dr = 0 ∨ df = 0) ∧ ¬(dr = 0 ∧ df = 0)) &&
      path_clear s fromSq toSq
  | Piece.King =>
    decide (dr.natAbs ≤ 1 ∧ df.natAbs ≤ 1 ∧ ¬(dr = 0 ∧ df = 0))

/-- `Board::is_attacked` (board.rs lines 312–321). -/
def is_attacked (s : Squares) (sq : Nat) (by' : Color) : Bool :=
  (List.range 64).any fun fromSq =>
    match getSq s fromSq with
    | some cp => cp.color = by' && piece_attacks s fromSq sq cp.piece
    | none => false

/-- `Board::find_king` (board.rs lines 301–310). -/
def find_king (s : Squares) (color : Color) : Option Nat :=
  (List.range 64).find? fun sq =>
    match getSq s sq with
    | some cp => cp.piece = Piece.King && cp.color = color
    | none => false

/-- `Board::in_check` (board.rs lines 296–299). -/
def in_check (b : Board) : Bool :=
  match find_king b.squares b.side with
  | some sq => is_attacked b.squares sq (opposite b.side)
  | none => false

/-- `Board::is_repetition` (board.rs lines 386–390). -/
def is_repetition (b : Board) : Bool :=
  2 ≤ b.position_hashes.countP (· == b.hash)

/-- `Board::is_fifty_move_rule` (board.rs lines 393–395). -/
def is_fifty_move_rule (b : Board) : Bool :=
  100 ≤ b.halfmove

/-! ## board.rs — FEN parsing -/

def pieceOfChar (c : Char) : Option Piece :=
  if c = 'p' then some Piece.Pawn
  else if c = 'n' then some Piece.Knight
  else if c = 'b' then some Piece.Bishop
  else if c = 'r' then some Piece.Rook
  else if c = 'q' then some Piece.Queen
  else if c = 'k' then some Piece.King
  else none

/-- `sq_from_str` (board.rs lines 402–408).  The source reads UTF-8 bytes;
FEN fields are ASCII, where bytes and chars coincide, and the `u8`
wrapping subtraction is the explicit `% 256`. -/
def sq_from_str (s : String) : Option Nat :=
  let bytes := s.toList
  if bytes.length < 2 then none
  else
    let file := ((bytes.getD 0 ' ').toNat % 256 + 256 - 97) % 256
    let rank := ((bytes.getD 1 ' ').toNat % 256 + 256 - 49) % 256
    if file < 8 ∧ rank < 8 then some (rank * 8 + file) else none

/-- One step of the piece-placement loop of `Board::from_fen`
(board.rs lines 90–110); the state is (squares, rank, file). -/
def fenPlacementStep (st : Squares × Int × Int) (ch : Char) : Squares × Int × Int :=
  let (sqs, rank, file) := st
  if ch = '/' then (sqs, rank - 1, 0)
  else if '1' ≤ ch ∧ ch ≤ '8' then (sqs, rank, file + ((ch.toNat : Int) - ('0'.toNat : Int)))
  else
    let color := if ch.isUpper then Color.White else Color.Black
    match pieceOfChar ch.toLower with
    | none => (sqs, rank, file + 1)
    | some piece =>
      let sq : Int := rank * 8 + file
      let sqs2 :=
        if 0 ≤ sq ∧ sq < 64 then setSq sqs sq.toNat (some ⟨piece, color⟩) else sqs
      (sqs2, rank, file + 1)

/-- `Board::from_fen` (board.rs lines 76–130).  Note the source resets
`castling` to 0 before the rights field and never reads fields beyond the
en-passant one (`parts[4]`/`parts[5]` are ignored); `halfmove` and `hash`
keep their initial value 0. -/
def from_fen (fen : String) : Board :=
  let parts := fen.splitOn " "
  let placement := parts.getD 0 ""
  let sqs := (placement.toList.foldl fenPlacementStep ((fun _ => none), 7, 0)).1
  let side :=
    if 1 < parts.length then
      if parts.getD 1 "" = "b" then Color.Black else Color.White
    else Color.White
  let castling :=
    if 2 < parts.length then
      let c := parts.getD 2 ""
      (if c.contains 'K' then 1 else 0) |||
      (if c.contains 'Q' then 2 else 0) |||
      (if c.contains 'k' then 4 else 0) |||
      (if c.contains 'q' then 8 else 0)
    else 0
  let ep :=
    if 3 < parts.length ∧ parts.getD 3 "" ≠ "-" then sq_from_str (parts.getD 3 "")
    else none
  { squares := sqs, side := side, castling := castling, ep_square := ep,
    halfmove := 0, hash := 0, history := [], position_hashes := [] }

def start_pos : Board :=
  from_fen "rnbqkbnr/pppppppp/8/8/8/8/PPPPPPPP/RNBQKBNR w KQkq - 0 1"

/-! ## movegen.rs -/

def KNIGHT_DELTAS : List (Int × Int) :=
  [(-2,-1),(-2,1),(-1,-2),(-1,2),(1,-2),(1,2),(2,-1),(2,1)]

def KING_DELTAS : List (Int × Int) :=
  [(-1,-1),(-1,0),(-1,1),(0,-1),(0,1),(1,-1),(1,0),(1,1)]

def BISHOP_DIRS : List (Int × Int) := [(-1,-1),(-1,1),(1,-1),(1,1)]

def ROOK_DIRS : List (Int × Int) := [(-1,0),(1,0),(0,-1),(0,1)]

/-- `gen_pawn_moves` (movegen.rs lines 52–107), in source push order:
single push (with promotions), nested double push, then for each capture
file the normal capture (with promotions) followed by en passant. -/
def gen_pawn_moves (b : Board) (fromSq : Nat) (color : Color) : List Move :=
  let dir : Int := if color = Color.White then 1 else -1
  let start_rank : Int := if color = Color.White then 1 else 6
  let promo_rank : Int := if color = Color.White then 7 else 0
  let fr : Int := fromSq / 8
  let ff : Int := fromSq % 8
  let pushes :=
    let tr := fr + dir
    if 0 ≤ tr ∧ tr < 8 then
      let toV := (tr * 8 + ff).toNat
      if getSq b.squares toV = none then
        if tr = promo_rank then
          [Piece.Queen, Piece.Rook, Piece.Bishop, Piece.Knight].map fun promo =>
            { fromSq := fromSq, toSq := toV, promotion := some promo, captured := none,
              is_ep := false, is_castle := false }
        else
          { fromSq := fromSq, toSq := toV, promotion := none, captured := none,
            is_ep := false, is_castle := false } ::
          (if fr = start_rank then
            let tr2 := fr + dir * 2
            let to2 := (tr2 * 8 + ff).toNat
            if getSq b.squares to2 = none then
              [{ fromSq := fromSq, toSq := to2, promotion := none, captured := none,
                 is_ep := false, is_castle := false }]
            else []
          else [])
      else []
    else []
  let caps := ([-1, 1] : List Int).flatMap fun df =>
    let tf := ff + df
    let tr := fr + dir
    if tf < 0 ∨ 8 ≤ tf ∨ tr < 0 ∨ 8 ≤ tr then []
    else
      let toV := (tr * 8 + tf).toNat
      let normal :=
        match getSq b.squares toV with
        | some target =>
          if target.color ≠ color then
            if tr = promo_rank then
              [Piece.Queen, Piece.Rook, Piece.Bishop, Piece.Knight].map fun promo =>
                { fromSq := fromSq, toSq := toV, promotion := some promo,
                  captured := some target.piece, is_ep := false, is_castle := false }
            else
              [{ fromSq := fromSq, toSq := toV, promotion := none,
                 captured := some target.piece, is_ep := false, is_castle := false }]
          else []
        | none => []
      let epMoves :=
        if b.ep_square = some toV then
          [{ fromSq := fromSq, toSq := toV, promotion := none,
             captured := some Piece.Pawn, is_ep := true, is_castle := false }]
        else []
      normal ++ epMoves
  pushes ++ caps

/-- `gen_leaper_moves` (movegen.rs lines 109–124). -/
def gen_leaper_moves (b : Board) (fromSq : Nat) (color : Color)
    (deltas : List (Int × Int)) : List Move :=
  let fr : Int := fromSq / 8
  let ff : Int := fromSq % 8
  deltas.flatMap fun d =>
    let tr := fr + d.1
    let tf := ff + d.2
    if tr < 0 ∨ 8 ≤ tr ∨ tf < 0 ∨ 8 ≤ tf then []
    else
      let toV := (tr * 8 + tf).toNat
      let captured := (getSq b.squares toV).bind fun cp =>
        if cp.color ≠ color then some cp.piece else none
      if (getSq b.squares toV).all fun cp => cp.color ≠ color then
        [{ fromSq := fromSq, toSq := toV, promotion := none, captured := captured,
           is_ep := false, is_castle := false }]
      else []

/-- The while loop of `gen_slider_moves` (movegen.rs lines 129–143) along one
direction, with fuel; starting inside the board a ray visits at most 7
squares, so fuel 8 is never exhausted. -/
def sliderGenAux (b : Board) (fromSq : Nat) (color : Color) (dr df : Int) :
    Nat → Int → Int → List Move
  | 0, _, _ => []
  | fuel + 1, tr, tf =>
    if 0 ≤ tr ∧ tr < 8 ∧ 0 ≤ tf ∧ tf < 8 then
      let toV := (tr * 8 + tf).toNat
      match getSq b.squares toV with
      | some cp =>
        if cp.color ≠ color then
          [{ fromSq := fromSq, toSq := toV, promotion := none, captured := some cp.piece,
             is_ep := false, is_castle := false }]
        else []
      | none =>
        { fromSq := fromSq, toSq := toV, promotion := none, captured := none,
          is_ep := false, is_castle := false } ::
        sliderGenAux b fromSq color dr df fuel (tr + dr) (tf + df)
    else []

/-- `gen_slider_moves` (movegen.rs lines 126–145). -/
def gen_slider_moves (b : Board) (fromSq : Nat) (color : Color)
    (dirs : List (Int × Int)) : List Move :=
  let fr : Int := fromSq / 8
  let ff : Int := fromSq % 8
  dirs.flatMap fun d => sliderGenAux b fromSq color d.1 d.2 8 (fr + d.1) (ff + d.2)

/-- `gen_castling` (movegen.rs lines 147–181). -/
def gen_castling (b : Board) (fromSq : Nat) (color : Color) : List Move :=
  let ks_bit : Nat := match color with | Color.White => 1 | Color.Black => 4
  let qs_bit : Nat := match color with | Color.White => 2 | Color.Black => 8
  let king_sq : Nat := match color with | Color.White => 4 | Color.Black => 60
  if fromSq ≠ king_sq then []
  else if is_attacked b.squares king_sq (opposite color) then []
  else
    let kingside :=
      if b.castling &&& ks_bit ≠ 0 then
        let sq1 := king_sq + 1
        let sq2 := king_sq + 2
        if getSq b.squares sq1 = none ∧ getSq b.squares sq2 = none ∧
            is_attacked b.squares sq1 (opposite color) = false ∧
            is_attacked b.squares sq2 (opposite color) = false then
          [{ fromSq := fromSq, toSq := sq2, promotion := none, captured := none,
             is_ep := false, is_castle := true }]
        else []
      else []
    let queenside :=
      if b.castling &&& qs_bit ≠ 0 then
        let sq1 := king_sq - 1
        let sq2 := king_sq - 2
        let sq3 := king_sq - 3
        if getSq b.squares sq1 = none ∧ getSq b.squares sq2 = none ∧
            getSq b.squares sq3 = none ∧
            is_attacked b.squares sq1 (opposite color) = false ∧
            is_attacked b.squares sq2 (opposite color) = false then
          [{ fromSq := fromSq, toSq := sq2, promotion := none, captured := none,
             is_ep := false, is_castle := true }]
        else []
      else []
    kingside ++ queenside

/-- `generate_pseudo_legal` (movegen.rs lines 22–45). -/
def generate_pseudo_legal (b : Board) : List Move :=
  (List.range 64).flatMap fun fromSq =>
    match getSq b.squares fromSq with
    | none => []
    | some cp =>
      if cp.color ≠ b.side then []
      else
        match cp.piece with
        | Piece.Pawn => gen_pawn_moves b fromSq cp.color
        | Piece.Knight => gen_leaper_moves b fromSq cp.color KNIGHT_DELTAS
        | Piece.Bishop => gen_slider_moves b fromSq cp.color BISHOP_DIRS
        | Piece.Rook => gen_slider_moves b fromSq cp.color ROOK_DIRS
        | Piece.Queen =>
            gen_slider_moves b fromSq cp.color BISHOP_DIRS ++
            gen_slider_moves b fromSq cp.color ROOK_DIRS
        | Piece.King =>
            gen_leaper_moves b fromSq cp.color KING_DELTAS ++
            gen_castling b fromSq cp.color

/-- The legality predicate of `generate_moves`'s `retain` closure
(movegen.rs lines 8–14): make the move on a clone and require the mover's
king to exist and not be attacked. -/
def legalFilter (b : Board) (mv : Move) : Bool :=
  let b2 := makeMove b mv
  match find_king b2.squares b.side with
  | some sq => !(is_attacked b2.squares sq (opposite b.side))
  | none => false

/-- `generate_moves` (movegen.rs lines 5–16). -/
def generate_moves (b : Board) : List Move :=
  (generate_pseudo_legal b).filter (legalFilter b)

/-- `generate_captures` (movegen.rs lines 18–20). -/
def generate_captures (b : Board) : List Move :=
  (generate_moves b).filter fun m => m.captured.isSome || m.is_ep

/-! ## eval.rs -/

def VAL_PAWN : Int := 100
def VAL_KNIGHT : Int := 320
def VAL_BISHOP : Int := 340
def VAL_ROOK : Int := 500
def VAL_QUEEN : Int := 950

def PAWN_OP : List Int :=
  [ 0,  0,  0,  0,  0,  0,  0,  0,
   -5, -5, -5, -5, -5, -5, -5, -5,
   -2, -2,  0,  5,  5,  0, -2, -2,
   -2, -2,  2, 22, 22,  2, -2, -2,
   -2, -2,  4, 24, 24,  4, -2, -2,
    3,  3,  6,  8,  8,  6,  3,  3,
   45, 45, 40, 30, 30, 40, 45, 45,
    0,  0,  0,  0,  0,  0,  0,  0]

def PAWN_EG : List Int :=
  [ 0,  0,  0,  0,  0,  0,  0,  0,
   10, 10, 10, 10, 10, 10, 10, 10,
    5,  5,  5,  5,  5,  5,  5,  5,
    2,  2,  5, 10, 10,  5,  2,  2,
    0,  0,  5, 12, 12,  5,  0,  0,
   -2, -2,  0,  5,  5,  0, -2, -2,
   -5, -5, -5, -5, -5, -5, -5, -5,
    0,  0,  0,  0,  0,  0,  0,  0]

def KNIGHT_OP : List Int :=
  [-50,-40,-30,-30,-30,-30,-40,-50,
   -40,-25, -5, -5, -5, -5,-25,-40,
   -30, -5,  8, 12, 12,  8, -5,-30,
   -30, -5, 12, 18, 18, 12, -5,-30,
   -30, -5, 12, 18, 18, 12, -5,-30,
   -30, -5,  8, 12, 12,  8, -5,-30,
   -40,-25, -5, -5, -5, -5,-25,-40,
   -50,-40,-35,-30,-30,-35,-40,-50]

def KNIGHT_EG : List Int :=
  [-60,-40,-30,-30,-30,-30,-40,-60,
   -40,-20,  0,  5,  5,  0,-20,-40,
   -30,  0, 15, 20, 20, 15,  0,-30,
   -30,  5, 20, 28, 28, 20,  5,-30,
   -30,  5, 20, 28, 28, 20,  5,-30,
   -30,  0, 15, 20, 20, 15,  0,-30,
   -40,-20,  0,  5,  5,  0,-20,-40,
   -60,-40,-30,-30,-30,-30,-40,-60]

def BISHOP_OP : List Int :=
  [-20,-10,-10,-10,-10,-10,-10,-20,
   -10,  5,  0,  0,  0,  0,  5,-10,
   -10, 10, 12, 12, 12, 12, 10,-10,
   -10,  5, 12, 15, 15, 12,  5,-10,
   -10,  5, 12, 15, 15, 12,  5,-10,
   -10, 10, 12, 12, 12, 12, 10,-10,
   -10,  5,  0,  0,  0,  0,  5,-10,
   -20,-10,-10,-10,-10,-10,-10,-20]

def BISHOP_EG : List Int :=
  [-20,-10,-10,-10,-10,-10,-10,-20,
   -10,  0,  0,  0,  0,  0,  0,-10,
   -10,  0,  8, 10, 10,  8,  0,-10,
   -10,  0, 10, 12, 12, 10,  0,-10,
   -10,  0, 10, 12, 12, 10,  0,-10,
   -10,  0,  8, 10, 10,  8,  0,-10,
   -10,  0,  0,  0,  0,  0,  0,-10,
   -20,-10,-10,-10,-10,-10,-10,-20]

def ROOK_OP : List Int :=
  [ 0,  0,  0,  5,  5,  0,  0,  0,
   -5,  0,  0,  0,  0,  0,  0, -5,
   -5,  0,  0,  0,  0,  0,  0, -5,
   -5,  0,  0,  0,  0,  0,  0, -5,
   -5,  0,  0,  0,  0,  0,  0, -5,
   -5,  0,  0,  0,  0,  0,  0, -5,
    5, 10, 10, 10, 10, 10, 10,  5,
    0,  0,  0,  0,  0,  0,  0,  0]

def ROOK_EG : List Int :=
  [ 5,  5,  5,  5,  5,  5,  5,  5,
   10, 10, 10, 10, 10, 10, 10, 10,
    0,  0,  0,  0,  0,  0,  0,  0,
    0,  0,  0,  0,  0,  0,  0,  0,
    0,  0,  0,  0,  0,  0,  0,  0,
    0,  0,  0,  0,  0,  0,  0,  0,
    0,  0,  0,  0,  0,  0,  0,  0,
    0,  0,  0,  0,  0,  0,  0,  0]

def QUEEN_OP : List Int :=
  [-20,-10,-10, -5, -5,-10,-10,-20,
   -10,  0,  0,  0,  0,  0,  0,-10,
   -10,  0,  5,  5,  5,  5,  0,-10,
    -5,  0,  5,  5,  5,  5,  0, -5,
     0,  0,  5,  5,  5,  5,  0, -5,
   -10,  5,  5,  5,  5,  5,  0,-10,
   -10,  0,  5,  0,  0,  0,  0,-10,
   -20,-15,-10, -5, -5,-10,-15,-20]

def QUEEN_EG : List Int :=
  [-30,-20,-10,  0,  0,-10,-20,-30,
   -20,-10,  0,  5,  5,  0,-10,-20,
   -10,  0, 10, 10, 10, 10,  0,-10,
     0,  5, 10, 15, 15, 10,  5,  0,
     0,  5, 10, 15, 15, 10,  5,  0,
   -10,  0, 10, 10, 10, 10,  0,-10,
   -20,-10,  0,  5,  5,  0,-10,-20,
   -30,-20,-10,  0,  0,-10,-20,-30]

def KING_OP : List Int :=
  [-30,-40,-40,-50,-50,-40,-40,-30,
   -30,-40,-40,-50,-50,-40,-40,-30,
   -30,-40,-40,-50,-50,-40,-40,-30,
   -30,-40,-40,-50,-50,-40,-40,-30,
   -20,-30,-30,-40,-40,-30,-30,-20,
   -10,-20,-20,-30,-30,-20,-20,-10,
    15, 20,-10,-15,-15,-10, 20, 15,
    20, 30, 10,-10,-10, 10, 30, 20]

def KING_EG : List Int :=
  [-50,-30,-20,-10,-10,-20,-30,-50,
   -30,-10,  5, 10, 10,  5,-10,-30,
   -20,  5, 15, 20, 20, 15,  5,-20,
   -10, 10, 20, 25, 25, 20, 10,-10,
   -10, 10, 20, 25, 25, 20, 10,-10,
   -20,  5, 15, 20, 20, 15,  5,-20,
   -30,-10,  5, 10, 10,  5,-10,-30,
   -50,-30,-20,-10,-10,-20,-30,-50]

/-- `game_phase` (eval.rs lines 155–168). -/
def game_phase (b : Board) : Int :=
  let mat : Int := ∑ sq ∈ Finset.range 64,
    (match getSq b.squares sq with
     | some cp =>
       match cp.piece with
       | Piece.Knight | Piece.Bishop => 1
       | Piece.Rook => 2
       | Piece.Queen => 4
       | _ => 0
     | none => 0)
  min ((mat * 256).tdiv 28) 256

/-- `pst_blend` (eval.rs lines 170–173). -/
def pst_blend (sq : Nat) (color : Color) (op eg : List Int) (phase : Int) : Int :=
  let idx := if color = Color.White then sq else sq ^^^ 56
  (op.getD idx 0 * phase + eg.getD idx 0 * (256 - phase)).tdiv 256

/-- Pawn count of `color` on file `f` — the `file_cnt` array of
`pawn_structure` (eval.rs lines 178–185). -/
def file_cnt (b : Board) (color : Color) (f : Nat) : Nat :=
  (List.range 64).countP fun sq =>
    match getSq b.squares sq with
    | some cp => cp.piece == Piece.Pawn && cp.color == color && sq % 8 == f
    | none => false

/-- `pawn_structure` (eval.rs lines 177–194). -/
def pawn_structure (b : Board) (color : Color) : Int :=
  ∑ f ∈ Finset.range 8,
    (if file_cnt b color f = 0 then 0
     else
       (if 1 < file_cnt b color f then -(20 * ((file_cnt b color f : Int) - 1)) else 0) +
       (if (f = 0 ∨ file_cnt b color (f - 1) = 0) ∧ (f = 7 ∨ file_cnt b color (f + 1) = 0)
        then -15 else 0))

/-- `king_safety` (eval.rs lines 198–216). -/
def king_safety (b : Board) (color : Color) (phase : Int) : Int :=
  if phase < 60 then 0
  else
    match find_king b.squares color with
    | none => 0
    | some king_sq =>
      let kf : Int := king_sq % 8
      let fileTerms := (([-1, 0, 1] : List Int).map fun df =>
        let f := kf + df
        if f < 0 ∨ 8 ≤ f then (0 : Int)
        else
          let has_pawn := (List.range 8).any fun r =>
            match getSq b.squares (r * 8 + f.toNat) with
            | some cp => cp.piece == Piece.Pawn && cp.color == color
            | none => false
          if has_pawn then 0 else -((18 * phase).tdiv 256)).sum
      fileTerms + (if 2 ≤ kf ∧ kf ≤ 5 then -((22 * phase).tdiv 256) else 0)

/-- `bishop_pair` (eval.rs lines 220–226). -/
def bishop_pair (b : Board) (color : Color) : Int :=
  let n := (List.range 64).countP fun sq =>
    match getSq b.squares sq with
    | some cp => cp.color == color && cp.piece == Piece.Bishop
    | none => false
  if 2 ≤ n then 30 else 0

/-- `rook_bonus` (eval.rs lines 230–246). -/
def rook_bonus (b : Board) (color : Color) : Int :=
  let seventh : Nat := if color = Color.White then 6 else 1
  ∑ sq ∈ Finset.range 64,
    (match getSq b.squares sq with
     | none => 0
     | some cp =>
       if cp.color ≠ color ∨ cp.piece ≠ Piece.Rook then 0
       else
         let file := sq % 8
         let friendly := (List.range 8).any fun r =>
           match getSq b.squares (r * 8 + file) with
           | some p => p.piece == Piece.Pawn && p.color == color
           | none => false
         let enemy := (List.range 8).any fun r =>
           match getSq b.squares (r * 8 + file) with
           | some p => p.piece == Piece.Pawn && p.color != color
           | none => false
         (if !friendly && !enemy then 20 else if !friendly then 10 else 0) +
         (if sq / 8 = seventh then 25 else 0))

/-- The while loop of `slider_mob` (eval.rs lines 278–290) along one
direction, with fuel (8 dominates the maximal ray length). -/
def sliderMobAux (s : Squares) (color : Color) (dr df : Int) :
    Nat → Int → Int → Int
  | 0, _, _ => 0
  | fuel + 1, tr, tf =>
    if 0 ≤ tr ∧ tr < 8 ∧ 0 ≤ tf ∧ tf < 8 then
      match getSq s (tr * 8 + tf).toNat with
      | some cp => if cp.color ≠ color then 1 else 0
      | none => 1 + sliderMobAux s color dr df fuel (tr + dr) (tf + df)
    else 0

/-- `slider_mob` (eval.rs lines 278–290). -/
def slider_mob (b : Board) (fromSq : Nat) (color : Color)
    (dirs : List (Int × Int)) : Int :=
  let fr : Int := fromSq / 8
  let ff : Int := fromSq % 8
  (dirs.map fun d => sliderMobAux b.squares color d.1 d.2 8 (fr + d.1) (ff + d.2)).sum

/-- `mobility` (eval.rs lines 250–276).  The in-line knight delta list and
the slider direction lists are the same literals as movegen's. -/
def mobility (b : Board) (color : Color) : Int :=
  ∑ fromSq ∈ Finset.range 64,
    (match getSq b.squares fromSq with
     | none => 0
     | some cp =>
       if cp.color ≠ color then 0
       else
         match cp.piece with
         | Piece.Knight =>
           (KNIGHT_DELTAS.map fun d =>
             let fr : Int := fromSq / 8
             let ff : Int := fromSq % 8
             let tr := fr + d.1
             let tf := ff + d.2
             if 0 ≤ tr ∧ tr < 8 ∧ 0 ≤ tf ∧ tf < 8 then
               match getSq b.squares (tr * 8 + tf).toNat with
               | some c => if c.color ≠ color then (1 : Int) else 0
               | none => 1
             else 0).sum
         | Piece.Bishop => slider_mob b fromSq color BISHOP_DIRS
         | Piece.Rook => slider_mob b fromSq color ROOK_DIRS
         | Piece.Queen =>
             slider_mob b fromSq color BISHOP_DIRS + slider_mob b fromSq color ROOK_DIRS
         | _ => 0)

/-- `evaluate` (eval.rs lines 294–319). -/
def evaluate (b : Board) : Int :=
  let phase := game_phase b
  let base := ∑ sq ∈ Finset.range 64,
    (match getSq b.squares sq with
     | none => 0
     | some cp =>
       let val :=
         match cp.piece with
         | Piece.Pawn => VAL_PAWN + pst_blend sq cp.color PAWN_OP PAWN_EG phase
         | Piece.Knight => VAL_KNIGHT + pst_blend sq cp.color KNIGHT_OP KNIGHT_EG phase
         | Piece.Bishop => VAL_BISHOP + pst_blend sq cp.color BISHOP_OP BISHOP_EG phase
         | Piece.Rook => VAL_ROOK + pst_blend sq cp.color ROOK_OP ROOK_EG phase
         | Piece.Queen => VAL_QUEEN + pst_blend sq cp.color QUEEN_OP QUEEN_EG phase
         | Piece.King => 0 + pst_blend sq cp.color KING_OP KING_EG phase
       if cp.color = Color.White then val else -val)
  let score := base
    + (pawn_structure b Color.White - pawn_structure b Color.Black)
    + (king_safety b Color.White phase - king_safety b Color.Black phase)
    + (bishop_pair b Color.White - bishop_pair b Color.Black)
    + (rook_bonus b Color.White - rook_bonus b Color.Black)
    + (mobility b Color.White - mobility b Color.Black) * 3
  if b.side = Color.White then score else -score

/-! ## search.rs

The wall clock (`std::time::Instant`) is the one part of the search that has
no pure counterpart: `check_time` compares elapsed real time against the
budget.  It is modelled by an oracle `tu : Nat → Bool` giving the outcome of
the elapsed-time comparison as a function of the node counter at the moment
`check_time` is called; every real execution corresponds to some oracle, and
the theorems below hold for every oracle.  `pvs`/`qsearch` recurse through a
`&mut Board` and `&mut self`; they are modelled state-passing, returning
`(score, board, state)`.  The mutual recursion gets an explicit fuel; the
fuel-exhaustion result is `(0, b, st)`, and the claims proved about `pvs`
concern branches taken before any recursive call, so they hold for every
positive fuel. -/

def INF : Int := 1000000
def MATE : Int := 900000

def Move.null : Move :=
  { fromSq := 0, toSq := 0, promotion := none, captured := none,
    is_ep := false, is_castle := false }

/-- One call of the xorshift64 closure `r` in `Zobrist::new`
(search.rs lines 22–25). -/
def xorshiftStep (s : Nat) : Nat :=
  let s1 := (s ^^^ (s <<< 13)) % 2 ^ 64
  let s2 := s1 ^^^ (s1 >>> 7)
  (s2 ^^^ (s2 <<< 17)) % 2 ^ 64

/-- State of the xorshift64 generator after `n` calls, seeded as in
`Zobrist::new`; call `n` (1-based) returns `zobSeq n`. -/
def zobSeq : Nat → Nat
  | 0 => 0x123456789abcdef0
  | n + 1 => xorshiftStep (zobSeq n)

/-- `Zobrist::new` draws, in order: `side` (call 1), `pieces[c][p][sq]`
(calls 2..769 in c-major, p, sq order), `ep[0..64]` (calls 770..833),
`castle[0..16]` (calls 834..849). -/
def Zobrist.sideKey : Nat := zobSeq 1

def Zobrist.piecesKey (c p sq : Nat) : Nat := zobSeq (2 + c * 384 + p * 64 + sq)

def Zobrist.epKey (i : Nat) : Nat := zobSeq (770 + i)

def Zobrist.castleKey (i : Nat) : Nat := zobSeq (834 + i)

def colorIndex (c : Color) : Nat :=
  match c with | Color.White => 0 | Color.Black => 1

def pieceIndex (p : Piece) : Nat :=
  match p with
  | Piece.Pawn => 0 | Piece.Knight => 1 | Piece.Bishop => 2
  | Piece.Rook => 3 | Piece.Queen => 4 | Piece.King => 5

/-- `Zobrist::hash` (search.rs lines 38–53). -/
def zobrist_hash (b : Board) : Nat :=
  let h := (List.range 64).foldl
    (fun h sq =>
      match getSq b.squares sq with
      | some cp => h ^^^ Zobrist.piecesKey (colorIndex cp.color) (pieceIndex cp.piece) sq
      | none => h) 0
  let h := if b.side = Color.Black then h ^^^ Zobrist.sideKey else h
  let h := h ^^^ Zobrist.castleKey (b.castling &&& 15)
  match b.ep_square with
  | some ep => h ^^^ Zobrist.epKey ep
  | none => h

structure TTEntry where
  hash : Nat
  depth : Nat
  score : Int
  flag : Nat
  mv : Move
deriving DecidableEq, Repr

/-- The transposition table: `data` indexed by `hash AND mask`,
`mask = 2^20 − 1` in `TT::new`. -/
structure TT where
  data : Nat → TTEntry
  mask : Nat

def TT.new : TT :=
  { data := fun _ => { hash := 0, depth := 0, score := 0, flag := 0, mv := Move.null },
    mask := 2 ^ 20 - 1 }

/-- `TT::probe` (search.rs lines 80–83). -/
def TT.probe (tt : TT) (hash : Nat) : Option TTEntry :=
  let e := tt.data (hash &&& tt.mask)
  if e.hash = hash ∧ 0 < e.depth then some e else none

/-- `TT::store` (search.rs lines 84–90): replace iff the slot holds a
different hash or the new depth is at least the stored depth. -/
def TT.store (tt : TT) (hash : Nat) (depth : Nat) (score : Int) (flag : Nat)
    (mv : Move) : TT :=
  let idx := hash &&& tt.mask
  let e := tt.data idx
  let newEntry : TTEntry :=
    { hash := hash, depth := depth, score := score, flag := flag, mv := mv }
  if e.hash ≠ hash ∨ e.depth ≤ depth then
    { tt with data := Function.update tt.data idx newEntry }
  else tt

/-- `TT::clear` (search.rs lines 91–93). -/
def TT.clear (tt : TT) : TT :=
  { tt with data := fun i => { tt.data i with depth := 0 } }

/-- The mutable search-engine state threaded through `pvs`/`qsearch`
(`SearchEngine` minus the board-independent configuration and the wall
clock, see the section comment). -/
structure SearchState where
  tt : TT
  nodes : Nat
  killer : Nat → Nat → Option Move
  history : Nat → Nat → Int
  rep_table : List Nat
  stopped : Bool

/-- `SearchEngine::is_draw` (search.rs lines 194–197). -/
def is_draw (rep : List Nat) (hash : Nat) (halfmove : Nat) : Bool :=
  if 100 ≤ halfmove then true
  else 2 ≤ rep.countP (· == hash)

/-- The sort key of `SearchEngine::order` (search.rs lines 306–323);
the source sorts ascending by this (negated) key. -/
def orderKey (st : SearchState) (tt_mv : Option Move) (ply : Nat) (mv : Move) : Int :=
  let s : Int := 0
  let s := if tt_mv = some mv then s + 2000000 else s
  let s :=
    match mv.captured with
    | some cap => s + 1000000 + piece_value cap * 10 - 100
    | none => s
  let s := if mv.promotion = some Piece.Queen then s + 900000 else s
  let s :=
    if ply < 128 then
      let s := if st.killer ply 0 = some mv then s + 800000 else s
      if st.killer ply 1 = some mv then s + 700000 else s
    else s
  let s := s + min (st.history mv.fromSq mv.toSq) 600000;
  -s

/-- `SearchEngine::order` — a stable ascending sort by `orderKey`
(Rust `sort_by_cached_key`; `List.mergeSort` is likewise stable). -/
def order (st : SearchState) (moves : List Move) (hash : Nat) (ply : Nat) : List Move :=
  let tt_mv := (st.tt.probe hash).map (·.mv)
  moves.mergeSort fun a b =>
    decide (orderKey st tt_mv ply a ≤ orderKey st tt_mv ply b)

set_option maxHeartbeats 1000000 in
mutual

/-- `SearchEngine::pvs` (search.rs lines 199–284), state-passing with fuel. -/
def pvs (tu : Nat → Bool) : Nat → Board → Nat → Int → Int → Nat → SearchState →
    (Int × Board × SearchState)
  | 0, b, _, _, _, _, st => (0, b, st)
  | fuel + 1, b, depth, alpha, beta, ply, st =>
    let st := { st with nodes := st.nodes + 1 }
    let st :=
      if st.nodes &&& 2047 = 0 then
        { st with stopped := st.stopped || tu st.nodes }
      else st
    if st.stopped then (0, b, st)
    else
      let hash := zobrist_hash b
      if 0 < ply ∧ is_draw st.rep_table hash b.halfmove then (0, b, st)
      else
        let ttCut : Option Int :=
          match st.tt.probe hash with
          | some e =>
            if depth ≤ e.depth then
              match e.flag with
              | 0 => some e.score
              | 1 => if beta ≤ e.score then some e.score else none
              | 2 => if e.score ≤ alpha then some e.score else none
              | _ => none
            else none
          | none => none
        match ttCut with
        | some scoreV => (scoreV, b, st)
        | none =>
          if depth = 0 then qsearch tu fuel b alpha beta st
          else
            let moves := generate_moves b
            if moves.isEmpty then
              ((if in_check b then -MATE + (ply : Int) else 0), b, st)
            else
              let ordered := order st moves hash ply
              let best_mv := ordered.headD Move.null
              let st := { st with rep_table := hash :: st.rep_table }
              pvsLoop tu fuel ordered 0 b depth alpha beta ply hash best_mv false st

/-- The move loop of `pvs` (search.rs lines 238–283), carrying the enumerate
index `i`, the running `alpha`, `best_mv` and the raised-alpha flag. -/
def pvsLoop (tu : Nat → Bool) : Nat → List Move → Nat → Board → Nat → Int → Int →
    Nat → Nat → Move → Bool → SearchState → (Int × Board × SearchState)
  | _, [], _, b, depth, alpha, _, _, hash, best_mv, raised, st =>
    let st := { st with rep_table := st.rep_table.tail }
    let flag : Nat := if !raised then 2 else 0
    let st := { st with tt := st.tt.store hash depth alpha flag best_mv }
    (alpha, b, st)
  | fuel, mv :: rest, i, b, depth, alpha, beta, ply, hash, best_mv, raised, st =>
    let b1 := makeMove b mv
    let res :=
      if i = 0 then
        let r1 := pvs tu fuel b1 (depth - 1) (-beta) (-alpha) (ply + 1) st
        (-r1.1, r1.2.1, r1.2.2)
      else
        let r : Nat :=
          if 3 ≤ i ∧ 3 ≤ depth ∧ mv.captured = none ∧ mv.promotion = none ∧
              in_check b1 = false
          then 1 else 0
        let r1 := pvs tu fuel b1 (depth - 1 - r) (-alpha - 1) (-alpha) (ply + 1) st
        if alpha < -r1.1 then
          let r2 := pvs tu fuel r1.2.1 (depth - 1) (-beta) (-alpha) (ply + 1) r1.2.2
          (-r2.1, r2.2.1, r2.2.2)
        else (-r1.1, r1.2.1, r1.2.2)
    let score := res.1
    let b2 := unmakeMove res.2.1
    let st := res.2.2
    if st.stopped then
      ((0 : Int), b2, { st with rep_table := st.rep_table.tail })
    else if alpha < score then
      if beta ≤ score then
        let st :=
          if mv.captured = none ∧ ply < 128 then
            let st := { st with killer := (fun p j =>
              if p = ply then (if j = 0 then some mv else st.killer ply 0)
              else st.killer p j) }
            { st with history := (fun f t =>
                if f = mv.fromSq ∧ t = mv.toSq then
                  min (st.history mv.fromSq mv.toSq + (depth : Int) * (depth : Int)) 50000
                else st.history f t) }
          else st
        let st := { st with rep_table := st.rep_table.tail }
        let st := { st with tt := st.tt.store hash depth beta 1 mv }
        (beta, b2, st)
      else pvsLoop tu fuel rest (i + 1) b2 depth score beta ply hash mv true st
    else pvsLoop tu fuel rest (i + 1) b2 depth alpha beta ply hash best_mv raised st

/-- `SearchEngine::qsearch` (search.rs lines 286–304), state-passing with
fuel. -/
def qsearch (tu : Nat → Bool) : Nat → Board → Int → Int → SearchState →
    (Int × Board × SearchState)
  | 0, b, _, _, st => (0, b, st)
  | fuel + 1, b, alpha, beta, st =>
    let st := { st with nodes := st.nodes + 1 }
    if st.stopped then (0, b, st)
    else
      let stand_pat := evaluate b
      if beta ≤ stand_pat then (beta, b, st)
      else
        let alpha := max alpha stand_pat
        qsearchLoop tu fuel stand_pat (generate_captures b) b alpha beta st

/-- The capture loop of `qsearch` (search.rs lines 294–302). -/
def qsearchLoop (tu : Nat → Bool) : Nat → Int → List Move → Board → Int → Int →
    SearchState → (Int × Board × SearchState)
  | _, _, [], b, alpha, _, st => (alpha, b, st)
  | fuel, sp, mv :: rest, b, alpha, beta, st =>
    let gain := (mv.captured.map piece_value).getD 0
    if sp + gain + 200 < alpha then qsearchLoop tu fuel sp rest b alpha beta st
    else
      let r1 := qsearch tu fuel (makeMove b mv) (-beta) (-alpha) st
      let s := -r1.1
      let b2 := unmakeMove r1.2.1
      if beta ≤ s then (beta, b2, r1.2.2)
      else qsearchLoop tu fuel sp rest b2 (max alpha s) beta r1.2.2

end

/-! ## Statement vocabulary and concrete witness inputs -/

/-- The color-swapped, vertically flipped (sq XOR 56) board with the side to
move flipped — the transformation `P ↦ P'` of the evaluation-symmetry claim.
Fields that `evaluate` never reads (castling, ep, counters, stacks) are kept
unchanged. -/
def flipBoard (b : Board) : Board :=
  { b with
    squares := fun i => (b.squares ⟨i.val ^^^ 56, Nat.xor_lt_two_pow (n := 6) i.isLt (by norm_num)⟩).map
      fun cp => ⟨cp.piece, opposite cp.color⟩
    side := opposite b.side }

/-- Number of occupied squares. -/
def pieceCount (b : Board) : Nat :=
  ∑ i ∈ Finset.range 64, if (getSq b.squares i).isSome then 1 else 0

/-- A board is *ep-consistent* (every position reachable in a lawful game is):
if an en-passant target square is set, that square is empty and the square
behind it (one rank toward the side to move, as `make_move` computes it)
holds an enemy pawn. -/
def epConsistent (b : Board) : Prop :=
  ∀ sq, b.ep_square = some sq →
    getSq b.squares sq = none ∧
    getSq b.squares (if b.side = Color.White then (sq + 248) % 256 else (sq + 8) % 256) =
      some ⟨Piece.Pawn, opposite b.side⟩

instance instDecidableEpConsistent (b : Board) : Decidable (epConsistent b) :=
  match h : b.ep_square with
  | none => isTrue (fun _ hsq => Option.noConfusion (h.symm.trans hsq))
  | some sq0 =>
    decidable_of_iff
      (getSq b.squares sq0 = none ∧
       getSq b.squares
           (if b.side = Color.White then (sq0 + 248) % 256 else (sq0 + 8) % 256) =
         some ⟨Piece.Pawn, opposite b.side⟩)
      ⟨fun hx sq hsq => Option.some.inj (h.symm.trans hsq) ▸ hx,
       fun hall => hall sq0 h⟩

/-- Shape facts `make_move`/`unmake_move` rely on for a castling move, all
guaranteed by `gen_castling`: one of the four concrete king trips, with the
king's destination and the rook's destination squares empty, and no capture
or en-passant flag. -/
def CastleShape (b : Board) (m : Move) : Prop :=
  (m.fromSq = 4 ∧ m.toSq = 6 ∨ m.fromSq = 4 ∧ m.toSq = 2 ∨
   m.fromSq = 60 ∧ m.toSq = 62 ∨ m.fromSq = 60 ∧ m.toSq = 58) ∧
  getSq b.squares m.toSq = none ∧
  getSq b.squares (if m.fromSq < m.toSq then m.fromSq + 1 else m.fromSq - 1) = none ∧
  m.captured = none ∧ m.is_ep = false

/-- Shape facts for an en-passant capture, guaranteed by `gen_pawn_moves`:
the destination is the board's ep target, no promotion, and the captured
pawn's square (one rank behind the destination, toward the mover) is on the
board and distinct from the source square. -/
def EpShape (b : Board) (m : Move) : Prop :=
  b.ep_square = some m.toSq ∧ m.promotion = none ∧
  (b.side = Color.White → 8 ≤ m.toSq ∧ m.toSq - 8 ≠ m.fromSq) ∧
  (b.side = Color.Black → m.toSq + 8 < 64 ∧ m.toSq + 8 ≠ m.fromSq)

/-- Shape facts for an ordinary (non-castle, non-ep) move: the `captured`
field mirrors the destination square's content (an enemy piece or empty),
and promotions only happen to pawns. -/
def NormShape (b : Board) (m : Move) (moving : ColoredPiece) : Prop :=
  ((getSq b.squares m.toSq = none ∧ m.captured = none) ∨
   (∃ t, getSq b.squares m.toSq = some t ∧ t.color = opposite b.side ∧
      m.captured = some t.piece)) ∧
  (m.promotion.isSome = true → moving.piece = Piece.Pawn)

/-- Every move emitted by the pseudo-legal generator is *sound*: in range,
non-degenerate, moving a piece of the side to move, capture/promotion fields
consistent with the board, and pawn double-pushes never captures (so a
capture never sets a new ep square). -/
def SoundMove (b : Board) (m : Move) : Prop :=
  m.fromSq < 64 ∧ m.toSq < 64 ∧ m.fromSq ≠ m.toSq ∧
  ∃ moving, getSq b.squares m.fromSq = some moving ∧ moving.color = b.side ∧
    (moving.piece = Piece.Pawn → (m.captured.isSome = true ∨ m.is_ep = true) →
      ((m.toSq : Int) - (m.fromSq : Int)).natAbs ≠ 16) ∧
    (if m.is_castle = true then CastleShape b m
     else if m.is_ep = true then EpShape b m
     else NormShape b m moving)

/-- An empty search-engine state: fresh TT, empty tables, not stopped. -/
def freshState : SearchState :=
  { tt := TT.new, nodes := 0, killer := fun _ _ => none,
    history := fun _ _ => 0, rep_table := [], stopped := false }

/-- Square array from an explicit placement list (concrete witness inputs are
built this way rather than through `from_fen`, whose string splitting is
defined by well-founded recursion and so does not reduce definitionally). -/
def squaresOfPlacements (ps : List (Nat × ColoredPiece)) : Squares :=
  fun i => (ps.find? fun p => p.1 == i.val).map (·.2)

def boardOfPlacements (ps : List (Nat × ColoredPiece)) (side : Color)
    (castling : Nat) (ep : Option Nat) (halfmove : Nat) : Board :=
  { squares := squaresOfPlacements ps, side := side, castling := castling,
    ep_square := ep, halfmove := halfmove, hash := 0,
    history := [], position_hashes := [] }

/-- Bare-kings board (White Ka1, Black Ka8), White to move. -/
def kingsBoard : Board :=
  boardOfPlacements [(0, ⟨Piece.King, Color.White⟩), (56, ⟨Piece.King, Color.Black⟩)]
    Color.White 0 none 0

/-- White king move a1→a2 on `kingsBoard`. -/
def kingsMove : Move :=
  { fromSq := 0, toSq := 8, promotion := none, captured := none,
    is_ep := false, is_castle := false }

/-- A stalemate position (Black Ka8, White Qc7, Kb6): Black to move, no
legal moves, not in check. -/
def staleBoard : Board :=
  boardOfPlacements
    [(41, ⟨Piece.King, Color.White⟩), (50, ⟨Piece.Queen, Color.White⟩),
     (56, ⟨Piece.King, Color.Black⟩)]
    Color.Black 0 none 0

/-- A position with the halfmove clock at 100 (fifty-move draw). -/
def fiftyBoard : Board :=
  boardOfPlacements
    [(0, ⟨Piece.King, Color.White⟩), (7, ⟨Piece.Rook, Color.White⟩),
     (56, ⟨Piece.King, Color.Black⟩)]
    Color.White 0 none 100

/-- White Ke1/Rh1 with kingside rights; black Kg8/Rh8 — the black rook
attacks h1 down the open file, yet White may castle kingside. -/
def rookAttackedBoard : Board :=
  boardOfPlacements
    [(4, ⟨Piece.King, Color.White⟩), (7, ⟨Piece.Rook, Color.White⟩),
     (62, ⟨Piece.King, Color.Black⟩), (63, ⟨Piece.Rook, Color.Black⟩)]
    Color.White 1 none 0

/-- White Ka1/Rb1 against Black Rb8/Kh8, White to move: Rb1xb8 is an
available rook capture. -/
def capBoard : Board :=
  boardOfPlacements
    [(0, ⟨Piece.King, Color.White⟩), (1, ⟨Piece.Rook, Color.White⟩),
     (57, ⟨Piece.Rook, Color.Black⟩), (63, ⟨Piece.King, Color.Black⟩)]
    Color.White 0 none 0

/-- The capture Rb1xb8 on `capBoard`. -/
def capMove : Move :=
  { fromSq := 1, toSq := 57, promotion := none, captured := some Piece.Rook,
    is_ep := false, is_castle := false }

/-- White Ka1 and Qd4 against the bare Black Ka8: a queen-up position with a
non-zero evaluation, used to separate the two sides of the symmetry claim. -/
def qBoard : Board :=
  boardOfPlacements
    [(0, ⟨Piece.King, Color.White⟩), (27, ⟨Piece.Queen, Color.White⟩),
     (56, ⟨Piece.King, Color.Black⟩)]
    Color.White 0 none 0

/-- `color` has at most one king on the board (true of every legal position).
`find_king` returns the first king in scan order, so mirror symmetry of
`king_safety` needs the king, if any, to be unique. -/
def kingUnique (b : Board) (c : Color) : Prop :=
  ∀ s1, s1 < 64 → ∀ s2, s2 < 64 →
    getSq b.squares s1 = some ⟨Piece.King, c⟩ →
    getSq b.squares s2 = some ⟨Piece.King, c⟩ → s1 = s2

instance (b : Board) (c : Color) : Decidable (kingUnique b c) :=
  inferInstanceAs (Decidable (∀ s1, s1 < 64 → ∀ s2, s2 < 64 →
    getSq b.squares s1 = some ⟨Piece.King, c⟩ →
    getSq b.squares s2 = some ⟨Piece.King, c⟩ → s1 = s2))

/-- A life of a `Board` "mutated only through `make_move` and
`unmake_move`": one operation of that lifecycle. -/
inductive BoardOp where
  | mk (mv : Move) : BoardOp
  | un : BoardOp

def applyOp (b : Board) : BoardOp → Board
  | BoardOp.mk mv => makeMove b mv
  | BoardOp.un => unmakeMove b

def applyOps (b : Board) (ops : List BoardOp) : Board :=
  ops.foldl applyOp b

/-- Number of `make_move` calls currently unmatched by `unmake_move`
(`unmake_move` on an empty history is a no-op, hence the truncated
subtraction). -/
def stackHeight (ops : List BoardOp) : Nat :=
  ops.foldl (fun n op => match op with | BoardOp.mk _ => n + 1 | BoardOp.un => n - 1) 0

/-- The C10 invariant: the board's hash, every stored history hash and every
repetition-stack entry all equal the construction-time hash, and the two
stacks have equal length. -/
def hashInv (h0 : Nat) (b : Board) : Prop :=
  b.hash = h0 ∧ (∀ e ∈ b.history, e.hash = h0) ∧
  (∀ x ∈ b.position_hashes, x = h0) ∧
  b.history.length = b.position_hashes.length

/-! ## Claim theorems -/

/-- **C2.** Every move returned by `generate_moves` is legal: after
`make_move` the moving side's king stands on a square not attacked by the
opponent. -/
theorem claim_C2 (b : Board) (m : Move) (hm : m ∈ generate_moves b) :
    ∃ ksq, find_king (makeMove b m).squares b.side = some ksq ∧
      is_attacked (makeMove b m).squares ksq (opposite b.side) = false := by
  have h := List.of_mem_filter hm
  unfold legalFilter at h
  dsimp only at h
  rcases hk : find_king (makeMove b m).squares b.side with _ | ksq <;> rw [hk] at h
  · simp at h
  · simp only [Bool.not_eq_true'] at h
    exact ⟨ksq, rfl, h⟩

theorem claim_C2_witness :
    ∃ ksq, find_king (makeMove kingsBoard kingsMove).squares kingsBoard.side = some ksq ∧
      is_attacked (makeMove kingsBoard kingsMove).squares ksq
        (opposite kingsBoard.side) = false :=
  claim_C2 kingsBoard kingsMove (by decide)

/-- **C6 counterexample.**  `TT::store` is *not* always-replace on the same
key: storing (hash 5, depth 5) and then (hash 5, depth 3) leaves the depth-5
entry; and on a colliding different hash (5 + 2^20, depth 1) it *does*
replace despite the lower depth. -/
theorem claim_C6_counterexample :
    ((TT.new.store 5 5 1 0 Move.null).store 5 3 2 0 Move.null).data 5 =
      { hash := 5, depth := 5, score := 1, flag := 0, mv := Move.null } ∧
    ((TT.new.store 5 5 1 0 Move.null).store (5 + 2 ^ 20) 1 7 0 Move.null).data 5 =
      { hash := 5 + 2 ^ 20, depth := 1, score := 7, flag := 0, mv := Move.null } := by
  constructor <;> decide

/-- **C6 (amended).**  `TT::store` replaces the indexed entry iff the stored
entry has a *different* hash (always-replace on collision) or the new depth
is ≥ the stored depth (depth-preferred on the *same* key); other slots are
untouched. -/
theorem claim_C6_amended (tt : TT) (hash depth : Nat) (score : Int)
    (flag : Nat) (mv : Move) :
    ((TT.store tt hash depth score flag mv).data (hash &&& tt.mask) =
      (if (tt.data (hash &&& tt.mask)).hash ≠ hash ∨
          (tt.data (hash &&& tt.mask)).depth ≤ depth then
        { hash := hash, depth := depth, score := score, flag := flag, mv := mv }
      else tt.data (hash &&& tt.mask))) ∧
    ∀ j, j ≠ hash &&& tt.mask →
      (TT.store tt hash depth score flag mv).data j = tt.data j := by
  unfold TT.store
  dsimp only
  by_cases hcond : (tt.data (hash &&& tt.mask)).hash ≠ hash ∨
      (tt.data (hash &&& tt.mask)).depth ≤ depth
  · simp only [if_pos hcond]
    refine ⟨Function.update_same _ _ _, fun j hj => ?_⟩
    exact Function.update_noteq hj _ _
  · simp [if_neg hcond]

theorem claim_C6_amended_witness :
    (((TT.new.store 5 5 1 0 Move.null).data (5 &&& TT.new.mask) =
      (if ((TT.new.data (5 &&& TT.new.mask)).hash ≠ 5 ∨
          (TT.new.data (5 &&& TT.new.mask)).depth ≤ 5) then
        { hash := 5, depth := 5, score := 1, flag := 0, mv := Move.null }
      else TT.new.data (5 &&& TT.new.mask))) ∧
    ∀ j, j ≠ 5 &&& TT.new.mask →
      (TT.new.store 5 5 1 0 Move.null).data j = TT.new.data j) :=
  claim_C6_amended TT.new 5 5 1 0 Move.null

/-- **C3.** At every `pvs` node with `ply > 0`, if the halfmove counter is at
least 100 or the position's Zobrist hash already occurs at least twice in
`rep_table`, the search returns the draw score 0 — whatever the depth,
window, transposition table, material, or time oracle. -/
theorem claim_C3 (tu : Nat → Bool) (fuel : Nat) (b : Board) (depth : Nat)
    (alpha beta : Int) (ply : Nat) (st : SearchState) (hply : 0 < ply)
    (hdraw : 100 ≤ b.halfmove ∨ 2 ≤ st.rep_table.countP (· == zobrist_hash b)) :
    (pvs tu (fuel + 1) b depth alpha beta ply st).1 = 0 := by
  have hd : is_draw st.rep_table (zobrist_hash b) b.halfmove = true := by
    unfold is_draw
    rcases hdraw with h | h
    · simp [h]
    · by_cases h100 : 100 ≤ b.halfmove <;> simp [h100, h]
  unfold pvs
  dsimp only
  split <;> split <;> simp [hply, hd]

theorem claim_C3_witness :
    (pvs (fun _ => false) 1 fiftyBoard 3 (-INF) INF 1 freshState).1 = 0 :=
  claim_C3 (fun _ => false) 0 fiftyBoard 3 (-INF) INF 1 freshState
    (by decide) (Or.inl (by decide))

set_option maxRecDepth 4000 in
/-- **C4.** When control reaches the move-generation step of `pvs` (the node
was not cut off by the time check, the draw check, the TT probe, or the
depth-0 quiescence call) and `generate_moves` returns no move, `pvs` returns
`-MATE + ply` if the side to move is in check and 0 (stalemate) otherwise. -/
theorem claim_C4 (tu : Nat → Bool) (fuel : Nat) (b : Board) (depth : Nat)
    (alpha beta : Int) (ply : Nat) (st : SearchState)
    (hstop : st.stopped = false)
    (htick : (st.nodes + 1) &&& 2047 = 0 → tu (st.nodes + 1) = false)
    (hdraw : ¬(0 < ply ∧ is_draw st.rep_table (zobrist_hash b) b.halfmove = true))
    (htt : ∀ e ∈ st.tt.probe (zobrist_hash b), e.depth < depth)
    (hdepth : depth ≠ 0)
    (hmoves : generate_moves b = []) :
    (pvs tu (fuel + 1) b depth alpha beta ply st).1 =
      if in_check b then -MATE + (ply : Int) else 0 := by
  rcases hp : st.tt.probe (zobrist_hash b) with _ | e
  · by_cases htk : (st.nodes + 1) &&& 2047 = 0
    · unfold pvs
      simp [htk, hstop, htick htk, hp, hdraw, hdepth, hmoves]
    · unfold pvs
      simp [htk, hstop, hp, hdraw, hdepth, hmoves]
  · have hlt : ¬depth ≤ e.depth := Nat.not_le.mpr (htt e (by rw [hp]; rfl))
    by_cases htk : (st.nodes + 1) &&& 2047 = 0
    · unfold pvs
      simp [htk, hstop, htick htk, hp, hlt, hdraw, hdepth, hmoves]
    · unfold pvs
      simp [htk, hstop, hp, hlt, hdraw, hdepth, hmoves]

set_option maxRecDepth 40000 in
theorem claim_C4_witness :
    (pvs (fun _ => false) 1 staleBoard 1 (-INF) INF 1 freshState).1 =
      (if in_check staleBoard then -MATE + (1 : Int) else 0) :=
  claim_C4 (fun _ => false) 0 staleBoard 1 (-INF) INF 1 freshState
    (by decide) (fun _ => by decide) (by decide) (by decide) (by decide) (by decide)

/-- **C8 counterexample.**  `from_fen` ignores the fifth (halfmove) FEN
field: a FEN with halfmove counter 37 yields a board with halfmove 0. -/
theorem claim_C8_counterexample :
    (from_fen "8/8/8/8/8/8/8/8 w - - 37 1").halfmove ≠ 37 := by
  decide

/-- **C8 (amended).**  `from_fen` parses only the first four FEN fields; the
halfmove counter of the returned board is always 0, whatever the fifth
field contains. -/
theorem claim_C8_amended (fen : String) : (from_fen fen).halfmove = 0 := rfl

/-! ### C10 infrastructure -/

theorem makeMove_hash (b : Board) (mv : Move) : (makeMove b mv).hash = b.hash := by
  unfold makeMove
  dsimp only
  split <;> rfl

theorem makeMove_history (b : Board) (mv : Move) :
    (makeMove b mv).history =
      { mv := mv, castling := b.castling, ep_square := b.ep_square,
        halfmove := b.halfmove, hash := b.hash } :: b.history := by
  unfold makeMove
  dsimp only
  split <;> rfl

theorem makeMove_position_hashes (b : Board) (mv : Move) :
    (makeMove b mv).position_hashes = b.hash :: b.position_hashes := by
  unfold makeMove
  dsimp only
  split <;> rfl

theorem unmakeMove_nil (b : Board) (h : b.history = []) : unmakeMove b = b := by
  unfold unmakeMove
  rw [h]

theorem unmakeMove_fields (b : Board) (e : HistoryEntry) (rest : List HistoryEntry)
    (h : b.history = e :: rest) :
    (unmakeMove b).hash = e.hash ∧ (unmakeMove b).history = rest ∧
    (unmakeMove b).position_hashes = b.position_hashes.tail := by
  refine ⟨?_, ?_, ?_⟩ <;>
    (unfold unmakeMove; rw [h]; dsimp only; repeat' split) <;> rfl

theorem hashInv_applyOp (h0 : Nat) (b : Board) (op : BoardOp)
    (hb : hashInv h0 b) : hashInv h0 (applyOp b op) := by
  obtain ⟨h1, h2, h3, h4⟩ := hb
  cases op with
  | mk mv =>
    refine ⟨?_, ?_, ?_, ?_⟩
    · rw [applyOp, makeMove_hash, h1]
    · rw [applyOp, makeMove_history]
      intro e he
      rcases List.mem_cons.mp he with rfl | he2
      · exact h1
      · exact h2 e he2
    · rw [applyOp, makeMove_position_hashes]
      intro x hx
      rcases List.mem_cons.mp hx with rfl | hx2
      · exact h1
      · exact h3 x hx2
    · rw [applyOp, makeMove_history, makeMove_position_hashes]
      simp [h4]
  | un =>
    rcases hh : b.history with _ | ⟨e, rest⟩
    · rw [applyOp, unmakeMove_nil b hh]
      exact ⟨h1, h2, h3, h4⟩
    · obtain ⟨u1, u2, u3⟩ := unmakeMove_fields b e rest hh
      refine ⟨?_, ?_, ?_, ?_⟩
      · rw [applyOp, u1]
        exact h2 e (by rw [hh]; exact List.mem_cons_self _ _)
      · rw [applyOp, u2]
        intro x hx
        exact h2 x (by rw [hh]; exact List.mem_cons_of_mem _ hx)
      · rw [applyOp, u3]
        intro x hx
        exact h3 x (List.mem_of_mem_tail hx)
      · rw [applyOp, u2, u3]
        rw [hh] at h4
        simp only [List.length_cons] at h4
        simp [List.length_tail, ← h4]

theorem hashInv_applyOps (h0 : Nat) (ops : List BoardOp) :
    ∀ b, hashInv h0 b → hashInv h0 (applyOps b ops) := by
  induction ops with
  | nil => exact fun b hb => hb
  | cons op ops ih =>
    intro b hb
    exact ih (applyOp b op) (hashInv_applyOp h0 b op hb)

theorem applyOps_length (h0 : Nat) (ops : List BoardOp) :
    ∀ b, hashInv h0 b →
      (applyOps b ops).position_hashes.length =
        ops.foldl (fun n op => match op with | BoardOp.mk _ => n + 1 | BoardOp.un => n - 1)
          b.position_hashes.length := by
  induction ops with
  | nil => exact fun b _ => rfl
  | cons op ops ih =>
    intro b hb
    have hstep : (applyOp b op).position_hashes.length =
        (match op with
         | BoardOp.mk _ => b.position_hashes.length + 1
         | BoardOp.un => b.position_hashes.length - 1) := by
      cases op with
      | mk mv => rw [applyOp, makeMove_position_hashes]; rfl
      | un =>
        rcases hh : b.history with _ | ⟨e, rest⟩
        · rw [applyOp, unmakeMove_nil b hh]
          have : b.position_hashes.length = 0 := by
            rw [← hb.2.2.2, hh]
            rfl
          simp [this]
        · obtain ⟨-, -, u3⟩ := unmakeMove_fields b e rest hh
          rw [applyOp, u3, List.length_tail]
    show (applyOps (applyOp b op) ops).position_hashes.length = _
    rw [ih (applyOp b op) (hashInv_applyOp h0 b op hb), hstep]
    rfl

/-- **C10.** A board built by `from_fen` (or `start_pos`) and mutated only by
`make_move`/`unmake_move` keeps its construction-time `hash` forever, every
entry of `position_hashes` equals that one value, and `is_repetition` holds
exactly when at least two `make_move` calls are unmatched — regardless of the
moves played. -/
theorem claim_C10 (fen : String) (ops : List BoardOp) :
    (applyOps (from_fen fen) ops).hash = (from_fen fen).hash ∧
    (∀ x ∈ (applyOps (from_fen fen) ops).position_hashes, x = (from_fen fen).hash) ∧
    (is_repetition (applyOps (from_fen fen) ops) = true ↔ 2 ≤ stackHeight ops) := by
  have hbase : hashInv (from_fen fen).hash (from_fen fen) := by
    refine ⟨rfl, ?_, ?_, rfl⟩ <;> intro x hx <;> simp [from_fen] at hx
  have hinv := hashInv_applyOps (from_fen fen).hash ops (from_fen fen) hbase
  obtain ⟨h1, h2, h3, h4⟩ := hinv
  refine ⟨h1, h3, ?_⟩
  have hcount :
      (applyOps (from_fen fen) ops).position_hashes.countP
        (· == (applyOps (from_fen fen) ops).hash) =
      (applyOps (from_fen fen) ops).position_hashes.length := by
    apply List.countP_eq_length.mpr
    intro a ha
    rw [h1, h3 a ha]
    exact beq_self_eq_true _
  have hlen : (applyOps (from_fen fen) ops).position_hashes.length = stackHeight ops := by
    have := applyOps_length (from_fen fen).hash ops (from_fen fen) hbase
    rw [this]
    rfl
  unfold is_repetition
  rw [hcount, hlen]
  simp

theorem claim_C10_witness :
    (applyOps (from_fen "k7/8/8/8/8/8/8/K7 w - - 0 1")
        [BoardOp.mk kingsMove, BoardOp.mk kingsMove]).hash =
      (from_fen "k7/8/8/8/8/8/8/K7 w - - 0 1").hash ∧
    (∀ x ∈ (applyOps (from_fen "k7/8/8/8/8/8/8/K7 w - - 0 1")
        [BoardOp.mk kingsMove, BoardOp.mk kingsMove]).position_hashes,
      x = (from_fen "k7/8/8/8/8/8/8/K7 w - - 0 1").hash) ∧
    (is_repetition (applyOps (from_fen "k7/8/8/8/8/8/8/K7 w - - 0 1")
        [BoardOp.mk kingsMove, BoardOp.mk kingsMove]) = true ↔
      2 ≤ stackHeight [BoardOp.mk kingsMove, BoardOp.mk kingsMove]) :=
  claim_C10 "k7/8/8/8/8/8/8/K7 w - - 0 1" [BoardOp.mk kingsMove, BoardOp.mk kingsMove]

/-- **C7.** A castling move is emitted only when the corresponding right bit
is set, every square between king and rook is empty, the king is not in
check, and the king's transit and landing squares are unattacked; and the
rook's own square is *not* required to be unattacked (on
`rookAttackedBoard` the kingside castle is emitted although h1 is attacked). -/
theorem claim_C7 :
    (∀ (b : Board) (fromSq : Nat) (color : Color) (m : Move),
      m ∈ gen_castling b fromSq color →
      fromSq = (if color = Color.White then 4 else 60) ∧
      is_attacked b.squares (if color = Color.White then 4 else 60)
        (opposite color) = false ∧
      m.is_castle = true ∧
      ((m.toSq = (if color = Color.White then 4 else 60) + 2 ∧
        b.castling &&& (if color = Color.White then 1 else 4) ≠ 0 ∧
        getSq b.squares ((if color = Color.White then 4 else 60) + 1) = none ∧
        getSq b.squares ((if color = Color.White then 4 else 60) + 2) = none ∧
        is_attacked b.squares ((if color = Color.White then 4 else 60) + 1)
          (opposite color) = false ∧
        is_attacked b.squares ((if color = Color.White then 4 else 60) + 2)
          (opposite color) = false) ∨
       (m.toSq = (if color = Color.White then 4 else 60) - 2 ∧
        b.castling &&& (if color = Color.White then 2 else 8) ≠ 0 ∧
        getSq b.squares ((if color = Color.White then 4 else 60) - 1) = none ∧
        getSq b.squares ((if color = Color.White then 4 else 60) - 2) = none ∧
        getSq b.squares ((if color = Color.White then 4 else 60) - 3) = none ∧
        is_attacked b.squares ((if color = Color.White then 4 else 60) - 1)
          (opposite color) = false ∧
        is_attacked b.squares ((if color = Color.White then 4 else 60) - 2)
          (opposite color) = false))) ∧
    ({ fromSq := 4, toSq := 6, promotion := none, captured := none,
       is_ep := false, is_castle := true } : Move) ∈
        gen_castling rookAttackedBoard 4 Color.White ∧
    is_attacked rookAttackedBoard.squares 7 Color.Black = true := by
  refine ⟨?_, by decide, by decide⟩
  intro b fromSq color m hm
  unfold gen_castling at hm
  cases color
  all_goals (
    dsimp only at hm
    split at hm
    · exact absurd hm (List.not_mem_nil m)
    · split at hm
      · exact absurd hm (List.not_mem_nil m)
      · rename_i hfrom hatt
        rcases List.mem_append.mp hm with hk | hq
        · split at hk
          · split at hk
            · rename_i hbit hcond
              rw [List.mem_singleton] at hk
              subst hk
              exact ⟨not_not.mp hfrom, by simpa using hatt, rfl,
                Or.inl ⟨rfl, hbit, hcond.1, hcond.2.1, hcond.2.2.1, hcond.2.2.2⟩⟩
            · exact absurd hk (List.not_mem_nil m)
          · exact absurd hk (List.not_mem_nil m)
        · split at hq
          · split at hq
            · rename_i hbit hcond
              rw [List.mem_singleton] at hq
              subst hq
              exact ⟨not_not.mp hfrom, by simpa using hatt, rfl,
                Or.inr ⟨rfl, hbit, hcond.1, hcond.2.1, hcond.2.2.1,
                  hcond.2.2.2.1, hcond.2.2.2.2⟩⟩
            · exact absurd hq (List.not_mem_nil m)
          · exact absurd hq (List.not_mem_nil m))

theorem claim_C7_witness :
    4 = (if Color.White = Color.White then 4 else 60) ∧
    is_attacked rookAttackedBoard.squares
      (if Color.White = Color.White then 4 else 60) (opposite Color.White) = false :=
  have h := claim_C7.1 rookAttackedBoard 4 Color.White
    { fromSq := 4, toSq := 6, promotion := none, captured := none,
      is_ep := false, is_castle := true } (by decide)
  ⟨h.1, h.2.1⟩

/-! ### C1 infrastructure: make/unmake round trip -/

theorem opposite_opposite (c : Color) : opposite (opposite c) = c := by
  cases c <;> rfl

theorem Board.ext1 {a b : Board} (h1 : a.squares = b.squares) (h2 : a.side = b.side)
    (h3 : a.castling = b.castling) (h4 : a.ep_square = b.ep_square)
    (h5 : a.halfmove = b.halfmove) (h6 : a.hash = b.hash)
    (h7 : a.history = b.history) (h8 : a.position_hashes = b.position_hashes) :
    a = b := by
  cases a
  cases b
  simp_all

theorem setSq_eq_update (s : Squares) (i : Nat) (hi : i < 64) (v : Option ColoredPiece) :
    setSq s i v = Function.update s ⟨i, hi⟩ v := dif_pos hi

theorem getSq_lt (s : Squares) (i : Nat) (hi : i < 64) : getSq s i = s ⟨i, hi⟩ :=
  dif_pos hi

theorem colorPiece_eta (t : ColoredPiece) (hp : t.piece = p) (hc : t.color = c) :
    t = ⟨p, c⟩ := by
  cases t
  simp_all

/-- Round trip of the square array for an ordinary (non-castle, non-ep)
sound move. -/
theorem squares_roundtrip_norm (s : Squares) (fa ta : Fin 64)
    (hne : fa ≠ ta) (moving : ColoredPiece) (hocc : s fa = some moving)
    (newp orig restore : Option ColoredPiece)
    (horig : orig = some moving) (hrestore : restore = s ta) :
    Function.update
      (Function.update
        (Function.update (Function.update s ta newp) fa none) fa orig)
      ta restore = s := by
  funext x
  by_cases h1 : x = ta
  · subst h1
    simp [Function.update_apply, hrestore]
  · by_cases h2 : x = fa
    · subst h2
      simp [Function.update_apply, h1, horig, hocc]
    · simp [Function.update_apply, h1, h2]

/-- Round trip of the square array for the en-passant surgery. -/
theorem squares_roundtrip_ep (s : Squares) (fa ta ba : Fin 64)
    (hft : fa ≠ ta) (hbf : ba ≠ fa) (hbt : ba ≠ ta)
    (moving pw : ColoredPiece) (hocc : s fa = some moving)
    (hta : s ta = none) (hba : s ba = some pw)
    (orig pwAdd : Option ColoredPiece)
    (horig : orig = some moving) (hpw : pwAdd = some pw) :
    Function.update
      (Function.update
        (Function.update
          (Function.update
            (Function.update (Function.update s ba none) ta (some moving))
            fa none)
          fa orig)
        ta none)
      ba pwAdd = s := by
  funext x
  by_cases h1 : x = ba
  · subst h1
    simp [Function.update_apply, hpw, hba]
  · by_cases h2 : x = ta
    · subst h2
      simp [Function.update_apply, h1, hta]
    · by_cases h3 : x = fa
      · subst h3
        simp [Function.update_apply, h1, h2, horig, hocc]
      · simp [Function.update_apply, h1, h2, h3]

/-- Round trip of the square array for the castling surgery. -/
theorem squares_roundtrip_castle (s : Squares) (fa ta rf rt : Fin 64)
    (hft : fa ≠ ta) (hfr : fa ≠ rf) (hfr2 : fa ≠ rt)
    (htr : ta ≠ rf) (htr2 : ta ≠ rt) (hrr : rf ≠ rt)
    (moving : ColoredPiece) (hocc : s fa = some moving)
    (hta : s ta = none) (hrt : s rt = none)
    (movedv rookv : Option ColoredPiece)
    (hmoved : movedv = some moving) (hrook : rookv = s rf) :
    Function.update
      (Function.update
        (Function.update
          (Function.update
            (Function.update
              (Function.update
                (Function.update (Function.update s ta (some moving)) fa none)
                rt
                ((Function.update (Function.update s ta (some moving)) fa none) rf))
              rf none)
            fa movedv)
          ta none)
        rf rookv)
      rt none = s := by
  funext x
  by_cases h1 : x = rt
  · subst h1
    simp [Function.update_apply, (Ne.symm htr2), (Ne.symm hfr2), (Ne.symm hrr), hrt]
  · by_cases h2 : x = rf
    · subst h2
      simp [Function.update_apply, h1, (Ne.symm htr), (Ne.symm hfr), hrook]
    · by_cases h3 : x = ta
      · subst h3
        simp [Function.update_apply, h1, h2, hft.symm, hta]
      · by_cases h4 : x = fa
        · subst h4
          simp [Function.update_apply, h1, h2, h3, hmoved, hocc]
        · simp [Function.update_apply, h1, h2, h3, h4]

theorem makeMove_side (b : Board) (mv : Move) : (makeMove b mv).side = opposite b.side := by
  unfold makeMove
  dsimp only
  split <;> rfl

theorem unmakeMove_scalars (b : Board) (e : HistoryEntry) (rest : List HistoryEntry)
    (h : b.history = e :: rest) :
    (unmakeMove b).side = opposite b.side ∧
    (unmakeMove b).castling = e.castling ∧
    (unmakeMove b).ep_square = e.ep_square ∧
    (unmakeMove b).halfmove = e.halfmove := by
  refine ⟨?_, ?_, ?_, ?_⟩ <;>
    (unfold unmakeMove; rw [h]; dsimp only; repeat' split) <;> rfl

/-- `make_move`'s square surgery for an ordinary move. -/
theorem makeMove_squares_norm (b : Board) (m : Move) (moving : ColoredPiece)
    (hocc : getSq b.squares m.fromSq = some moving)
    (hf64 : m.fromSq < 64) (ht64 : m.toSq < 64)
    (hc : m.is_castle = false) (he : m.is_ep = false) :
    (makeMove b m).squares =
      Function.update
        (Function.update b.squares ⟨m.toSq, ht64⟩
          (match m.promotion with
           | some promo => some ⟨promo, moving.color⟩
           | none => some moving))
        ⟨m.fromSq, hf64⟩ none := by
  unfold makeMove
  dsimp only
  rw [hocc]
  dsimp only
  rw [hc, he]
  simp only [if_neg Bool.false_ne_true]
  rw [setSq_eq_update _ _ ht64, setSq_eq_update _ _ hf64]

/-- `unmake_move`'s square surgery for an ordinary move. -/
theorem unmakeMove_squares_norm (b : Board) (e : HistoryEntry) (rest : List HistoryEntry)
    (hh : b.history = e :: rest) (hc : e.mv.is_castle = false) (he : e.mv.is_ep = false)
    (hf64 : e.mv.fromSq < 64) (ht64 : e.mv.toSq < 64) :
    (unmakeMove b).squares =
      Function.update
        (Function.update b.squares ⟨e.mv.fromSq, hf64⟩
          (if e.mv.promotion.isSome then some ⟨Piece.Pawn, opposite b.side⟩
           else b.squares ⟨e.mv.toSq, ht64⟩))
        ⟨e.mv.toSq, ht64⟩
        (e.mv.captured.map fun p => ⟨p, opposite (opposite b.side)⟩) := by
  unfold unmakeMove
  rw [hh]
  dsimp only
  rw [hc, he]
  simp only [if_neg Bool.false_ne_true]
  rw [getSq_lt _ _ ht64, setSq_eq_update _ _ hf64, setSq_eq_update _ _ ht64]

/-- `make_move`'s square surgery for an en-passant capture. -/
theorem makeMove_squares_ep (b : Board) (m : Move) (moving : ColoredPiece)
    (hocc : getSq b.squares m.fromSq = some moving)
    (hf64 : m.fromSq < 64) (ht64 : m.toSq < 64)
    (hc : m.is_castle = false) (he : m.is_ep = true) (hprom : m.promotion = none)
    (BA : Nat) (hBA64 : BA < 64)
    (hBA : (if b.side = Color.White then (m.toSq + 248) % 256 else (m.toSq + 8) % 256) = BA) :
    (makeMove b m).squares =
      Function.update
        (Function.update (Function.update b.squares ⟨BA, hBA64⟩ none)
          ⟨m.toSq, ht64⟩ (some moving))
        ⟨m.fromSq, hf64⟩ none := by
  unfold makeMove
  dsimp only
  rw [hocc]
  dsimp only
  rw [hc, he, hprom]
  simp only [if_neg Bool.false_ne_true, if_true]
  rw [hBA, if_pos hBA64]
  rw [setSq_eq_update _ _ hBA64, setSq_eq_update _ _ ht64, setSq_eq_update _ _ hf64]

/-- `unmake_move`'s square surgery for an en-passant capture. -/
theorem unmakeMove_squares_ep (b : Board) (e : HistoryEntry) (rest : List HistoryEntry)
    (hh : b.history = e :: rest) (hc : e.mv.is_castle = false) (he : e.mv.is_ep = true)
    (hprom : e.mv.promotion = none)
    (hf64 : e.mv.fromSq < 64) (ht64 : e.mv.toSq < 64)
    (BA : Nat) (hBA64 : BA < 64)
    (hBA : (if opposite b.side = Color.White then (e.mv.toSq + 248) % 256
            else (e.mv.toSq + 8) % 256) = BA) :
    (unmakeMove b).squares =
      Function.update
        (Function.update
          (Function.update b.squares ⟨e.mv.fromSq, hf64⟩ (b.squares ⟨e.mv.toSq, ht64⟩))
          ⟨e.mv.toSq, ht64⟩ none)
        ⟨BA, hBA64⟩ (some ⟨Piece.Pawn, opposite (opposite b.side)⟩) := by
  unfold unmakeMove
  rw [hh]
  dsimp only
  rw [hc, he, hprom]
  simp only [if_neg Bool.false_ne_true, Option.isSome_none, if_true]
  rw [hBA, if_pos hBA64]
  rw [getSq_lt _ _ ht64, setSq_eq_update _ _ hf64, setSq_eq_update _ _ ht64,
    setSq_eq_update _ _ hBA64]

/-- `make_move`'s square surgery for castling. -/
theorem makeMove_squares_castle (b : Board) (m : Move) (moving : ColoredPiece)
    (hocc : getSq b.squares m.fromSq = some moving)
    (hf64 : m.fromSq < 64) (ht64 : m.toSq < 64)
    (hc : m.is_castle = true)
    (RF RT : Nat) (hRF64 : RF < 64) (hRT64 : RT < 64)
    (hRF : (if m.fromSq < m.toSq then (m.fromSq + 3) % 256 else (m.fromSq + 252) % 256) = RF)
    (hRT : (if m.fromSq < m.toSq then (m.fromSq + 1) % 256 else (m.fromSq + 255) % 256) = RT) :
    (makeMove b m).squares =
      Function.update
        (Function.update
          (Function.update (Function.update b.squares ⟨m.toSq, ht64⟩ (some moving))
            ⟨m.fromSq, hf64⟩ none)
          ⟨RT, hRT64⟩
          ((Function.update (Function.update b.squares ⟨m.toSq, ht64⟩ (some moving))
            ⟨m.fromSq, hf64⟩ none) ⟨RF, hRF64⟩))
        ⟨RF, hRF64⟩ none := by
  unfold makeMove
  dsimp only
  rw [hocc]
  dsimp only
  rw [hc]
  simp only [if_pos rfl, if_true]
  rw [hRF, hRT, if_pos ((⟨hRF64, hRT64⟩ : RF < 64 ∧ RT < 64))]
  rw [setSq_eq_update _ _ ht64, setSq_eq_update _ _ hf64,
    getSq_lt _ _ hRF64, setSq_eq_update _ _ hRT64, setSq_eq_update _ _ hRF64]

/-- `unmake_move`'s square surgery for castling. -/
theorem unmakeMove_squares_castle (b : Board) (e : HistoryEntry) (rest : List HistoryEntry)
    (hh : b.history = e :: rest) (hc : e.mv.is_castle = true)
    (hf64 : e.mv.fromSq < 64) (ht64 : e.mv.toSq < 64)
    (RF RT : Nat) (hRF64 : RF < 64) (hRT64 : RT < 64)
    (hRF : (if e.mv.fromSq < e.mv.toSq then (e.mv.fromSq + 3) % 256
            else (e.mv.fromSq + 252) % 256) = RF)
    (hRT : (if e.mv.fromSq < e.mv.toSq then (e.mv.fromSq + 1) % 256
            else (e.mv.fromSq + 255) % 256) = RT) :
    (unmakeMove b).squares =
      Function.update
        (Function.update
          (Function.update
            (Function.update b.squares ⟨e.mv.fromSq, hf64⟩ (b.squares ⟨e.mv.toSq, ht64⟩))
            ⟨e.mv.toSq, ht64⟩ none)
          ⟨RF, hRF64⟩
          ((Function.update
            (Function.update b.squares ⟨e.mv.fromSq, hf64⟩ (b.squares ⟨e.mv.toSq, ht64⟩))
            ⟨e.mv.toSq, ht64⟩ none) ⟨RT, hRT64⟩))
        ⟨RT, hRT64⟩ none := by
  unfold unmakeMove
  rw [hh]
  dsimp only
  rw [hc]
  simp only [if_pos rfl, if_true]
  rw [hRF, hRT, if_pos ((⟨hRF64, hRT64⟩ : RF < 64 ∧ RT < 64))]
  rw [getSq_lt _ _ ht64, setSq_eq_update _ _ hf64, setSq_eq_update _ _ ht64,
    getSq_lt _ _ hRT64, setSq_eq_update _ _ hRF64, setSq_eq_update _ _ hRT64]

/-- Round trip for an ordinary (non-castle, non-ep) sound move. -/
theorem roundtrip_norm (b : Board) (m : Move) (hf64 : m.fromSq < 64)
    (ht64 : m.toSq < 64) (hne : m.fromSq ≠ m.toSq) (moving : ColoredPiece)
    (hocc : getSq b.squares m.fromSq = some moving) (hcolor : moving.color = b.side)
    (hc : m.is_castle = false) (he : m.is_ep = false)
    (hshape : NormShape b m moving) :
    unmakeMove (makeMove b m) = b := by
  obtain ⟨hcap, hpromo⟩ := hshape
  have hfinne : (⟨m.fromSq, hf64⟩ : Fin 64) ≠ ⟨m.toSq, ht64⟩ :=
    fun h => hne (congrArg Fin.val h)
  have hhist := makeMove_history b m
  have hufields := unmakeMove_fields (makeMove b m) _ _ hhist
  have huscal := unmakeMove_scalars (makeMove b m) _ _ hhist
  have husq := unmakeMove_squares_norm (makeMove b m) _ _ hhist hc he hf64 ht64
  have hmsq := makeMove_squares_norm b m moving hocc hf64 ht64 hc he
  have hside := makeMove_side b m
  dsimp only at husq hufields huscal
  apply Board.ext1
  · rw [husq, hmsq]
    apply squares_roundtrip_norm b.squares ⟨m.fromSq, hf64⟩ ⟨m.toSq, ht64⟩ hfinne moving
      ((getSq_lt b.squares m.fromSq hf64).symm.trans hocc)
    · rcases hpm : m.promotion with _ | p
      · simp only [hpm, Option.isSome_none, Bool.false_eq_true, if_false]
        rw [Function.update_noteq hfinne.symm, Function.update_same]
      · simp only [hpm, Option.isSome_some, if_true, hside, opposite_opposite]
        rw [colorPiece_eta moving (hpromo (by rw [hpm]; rfl)) hcolor]
    · rcases hcap with ⟨htnone, hcnone⟩ | ⟨t, htsome, htcol, hcsome⟩
      · rw [hcnone]
        simp only [Option.map_none']
        rw [← getSq_lt b.squares m.toSq ht64, htnone]
      · rw [hcsome]
        simp only [Option.map_some']
        rw [hside, opposite_opposite, ← htcol, ← colorPiece_eta t rfl rfl,
          ← getSq_lt b.squares m.toSq ht64, htsome]
  · rw [huscal.1, hside, opposite_opposite]
  · exact huscal.2.1
  · exact huscal.2.2.1
  · exact huscal.2.2.2
  · exact hufields.1
  · exact hufields.2.1
  · rw [hufields.2.2, makeMove_position_hashes]
    rfl

/-- Round trip for an en-passant capture on an ep-consistent board. -/
theorem roundtrip_ep (b : Board) (m : Move) (hf64 : m.fromSq < 64)
    (ht64 : m.toSq < 64) (hne : m.fromSq ≠ m.toSq) (moving : ColoredPiece)
    (hocc : getSq b.squares m.fromSq = some moving) (hcolor : moving.color = b.side)
    (hc : m.is_castle = false) (he : m.is_ep = true)
    (hshape : EpShape b m) (hep : epConsistent b) :
    unmakeMove (makeMove b m) = b := by
  obtain ⟨hepsq, hprom, hW, hB⟩ := hshape
  obtain ⟨htnone, hbpawn⟩ := hep m.toSq hepsq
  have hfinne : (⟨m.fromSq, hf64⟩ : Fin 64) ≠ ⟨m.toSq, ht64⟩ :=
    fun h => hne (congrArg Fin.val h)
  have hside := makeMove_side b m
  have hhist := makeMove_history b m
  have hufields := unmakeMove_fields (makeMove b m) _ _ hhist
  have huscal := unmakeMove_scalars (makeMove b m) _ _ hhist
  -- the captured pawn's square
  obtain ⟨BA, hBA64, hBAeq, hbane, hbate⟩ :
      ∃ BA, BA < 64 ∧
        ((if b.side = Color.White then (m.toSq + 248) % 256 else (m.toSq + 8) % 256) = BA) ∧
        BA ≠ m.fromSq ∧ BA ≠ m.toSq := by
    rcases hsd : b.side with _ | _
    · obtain ⟨h8, hnef⟩ := hW hsd
      refine ⟨m.toSq - 8, by omega, ?_, hnef, by omega⟩
      rw [if_pos rfl]
      omega
    · obtain ⟨hlt, hnef⟩ := hB hsd
      refine ⟨m.toSq + 8, by omega, ?_, hnef, by omega⟩
      rw [if_neg (by decide)]
      omega
  have husq := unmakeMove_squares_ep (makeMove b m) _ _ hhist hc he hprom hf64 ht64 BA hBA64
    (by rw [hside, opposite_opposite]; exact hBAeq)
  have hmsq := makeMove_squares_ep b m moving hocc hf64 ht64 hc he hprom BA hBA64 hBAeq
  rw [hBAeq] at hbpawn
  dsimp only at husq hufields huscal
  apply Board.ext1
  · rw [husq, hmsq]
    have hbfin1 : (⟨BA, hBA64⟩ : Fin 64) ≠ ⟨m.fromSq, hf64⟩ :=
      fun h => hbane (congrArg Fin.val h)
    have hbfin2 : (⟨BA, hBA64⟩ : Fin 64) ≠ ⟨m.toSq, ht64⟩ :=
      fun h => hbate (congrArg Fin.val h)
    apply squares_roundtrip_ep b.squares ⟨m.fromSq, hf64⟩ ⟨m.toSq, ht64⟩ ⟨BA, hBA64⟩
      hfinne hbfin1 hbfin2 moving ⟨Piece.Pawn, opposite b.side⟩
      ((getSq_lt b.squares m.fromSq hf64).symm.trans hocc)
      ((getSq_lt b.squares m.toSq ht64).symm.trans htnone)
      ((getSq_lt b.squares BA hBA64).symm.trans hbpawn)
    · rw [Function.update_noteq hfinne.symm, Function.update_same]
    · rw [hside, opposite_opposite]
  · rw [huscal.1, hside, opposite_opposite]
  · exact huscal.2.1
  · exact huscal.2.2.1
  · exact huscal.2.2.2
  · exact hufields.1
  · exact hufields.2.1
  · rw [hufields.2.2, makeMove_position_hashes]
    rfl

/-- Round trip for a castling move. -/
theorem roundtrip_castle (b : Board) (m : Move) (moving : ColoredPiece)
    (hocc : getSq b.squares m.fromSq = some moving)
    (hc : m.is_castle = true) (hshape : CastleShape b m) :
    unmakeMove (makeMove b m) = b := by
  obtain ⟨hgeom, htnone, hrtnone, hcap, hepf⟩ := hshape
  have hhist := makeMove_history b m
  have hufields := unmakeMove_fields (makeMove b m) _ _ hhist
  have huscal := unmakeMove_scalars (makeMove b m) _ _ hhist
  have hside := makeMove_side b m
  obtain ⟨RF, RT, hf64, ht64, hRF64, hRT64, hRF, hRT, hdist⟩ :
      ∃ RF RT, ∃ (hf64 : m.fromSq < 64) (ht64 : m.toSq < 64)
        (hRF64 : RF < 64) (hRT64 : RT < 64),
        ((if m.fromSq < m.toSq then (m.fromSq + 3) % 256 else (m.fromSq + 252) % 256) = RF) ∧
        ((if m.fromSq < m.toSq then (m.fromSq + 1) % 256 else (m.fromSq + 255) % 256) = RT) ∧
        (m.fromSq ≠ m.toSq ∧ m.fromSq ≠ RF ∧ m.fromSq ≠ RT ∧ m.toSq ≠ RF ∧
          m.toSq ≠ RT ∧ RF ≠ RT ∧ RT = (if m.fromSq < m.toSq then m.fromSq + 1 else m.fromSq - 1)) := by
    rcases hgeom with ⟨hf, ht⟩ | ⟨hf, ht⟩ | ⟨hf, ht⟩ | ⟨hf, ht⟩ <;> rw [hf, ht] <;>
      [exact ⟨7, 5, by norm_num, by norm_num, by norm_num, by norm_num, by norm_num,
        by norm_num, by norm_num⟩;
       exact ⟨0, 3, by norm_num, by norm_num, by norm_num, by norm_num, by norm_num,
        by norm_num, by norm_num⟩;
       exact ⟨63, 61, by norm_num, by norm_num, by norm_num, by norm_num, by norm_num,
        by norm_num, by norm_num⟩;
       exact ⟨56, 59, by norm_num, by norm_num, by norm_num, by norm_num, by norm_num,
        by norm_num, by norm_num⟩]
  obtain ⟨hne, hnfr, hnft, hntr, hntt, hrr, hRTval⟩ := hdist
  have husq := unmakeMove_squares_castle (makeMove b m) _ _ hhist hc hf64 ht64
    RF RT hRF64 hRT64 hRF hRT
  have hmsq := makeMove_squares_castle b m moving hocc hf64 ht64 hc RF RT hRF64 hRT64 hRF hRT
  have hrtnone2 : getSq b.squares RT = none := by
    rw [hRTval]
    exact hrtnone
  dsimp only at husq hufields huscal
  apply Board.ext1
  · rw [husq, hmsq]
    have d1 : (⟨m.fromSq, hf64⟩ : Fin 64) ≠ ⟨m.toSq, ht64⟩ :=
      fun h => hne (congrArg Fin.val h)
    have d2 : (⟨m.fromSq, hf64⟩ : Fin 64) ≠ ⟨RF, hRF64⟩ :=
      fun h => hnfr (congrArg Fin.val h)
    have d3 : (⟨m.fromSq, hf64⟩ : Fin 64) ≠ ⟨RT, hRT64⟩ :=
      fun h => hnft (congrArg Fin.val h)
    have d4 : (⟨m.toSq, ht64⟩ : Fin 64) ≠ ⟨RF, hRF64⟩ :=
      fun h => hntr (congrArg Fin.val h)
    have d5 : (⟨m.toSq, ht64⟩ : Fin 64) ≠ ⟨RT, hRT64⟩ :=
      fun h => hntt (congrArg Fin.val h)
    have d6 : (⟨RF, hRF64⟩ : Fin 64) ≠ ⟨RT, hRT64⟩ :=
      fun h => hrr (congrArg Fin.val h)
    apply squares_roundtrip_castle b.squares ⟨m.fromSq, hf64⟩ ⟨m.toSq, ht64⟩
      ⟨RF, hRF64⟩ ⟨RT, hRT64⟩ d1 d2 d3 d4 d5 d6 moving
      ((getSq_lt b.squares m.fromSq hf64).symm.trans hocc)
      ((getSq_lt b.squares m.toSq ht64).symm.trans htnone)
      ((getSq_lt b.squares RT hRT64).symm.trans hrtnone2)
    · rw [Function.update_noteq d4, Function.update_noteq d5,
        Function.update_noteq d1.symm, Function.update_same]
    · rw [Function.update_noteq d5.symm, Function.update_noteq d3.symm,
        Function.update_noteq d6.symm, Function.update_same,
        Function.update_noteq d2.symm, Function.update_noteq d4.symm]
  · rw [huscal.1, hside, opposite_opposite]
  · exact huscal.2.1
  · exact huscal.2.2.1
  · exact huscal.2.2.2
  · exact hufields.1
  · exact hufields.2.1
  · rw [hufields.2.2, makeMove_position_hashes]
    rfl

/-! ### Movegen soundness -/

theorem eq_opposite_of_ne {a c : Color} (h : a ≠ c) : a = opposite c := by
  cases a <;> cases c <;> simp_all [opposite]

/-- `SoundMove` for a quiet (non-capturing) ordinary move. -/
theorem sound_quiet (b : Board) (fromSq toV : Nat) (piece : Piece) (color : Color)
    (hf64 : fromSq < 64) (ht64 : toV < 64) (hne : fromSq ≠ toV)
    (hocc : getSq b.squares fromSq = some ⟨piece, color⟩) (hside : color = b.side)
    (hempty : getSq b.squares toV = none) (promo : Option Piece)
    (hpp : promo.isSome = true → piece = Piece.Pawn) :
    SoundMove b { fromSq := fromSq, toSq := toV, promotion := promo, captured := none,
                  is_ep := false, is_castle := false } :=
  ⟨hf64, ht64, hne, ⟨piece, color⟩, hocc, hside,
    fun _ h => by rcases h with h | h <;> simp at h,
    ⟨Or.inl ⟨hempty, rfl⟩, hpp⟩⟩

/-- `SoundMove` for an ordinary capture. -/
theorem sound_capture (b : Board) (fromSq toV : Nat) (piece : Piece) (color : Color)
    (target : ColoredPiece)
    (hf64 : fromSq < 64) (ht64 : toV < 64) (hne : fromSq ≠ toV)
    (hocc : getSq b.squares fromSq = some ⟨piece, color⟩) (hside : color = b.side)
    (htarget : getSq b.squares toV = some target) (htc : target.color ≠ color)
    (promo : Option Piece) (hpp : promo.isSome = true → piece = Piece.Pawn)
    (hdiffOK : piece = Piece.Pawn → ((toV : Int) - (fromSq : Int)).natAbs ≠ 16) :
    SoundMove b { fromSq := fromSq, toSq := toV, promotion := promo,
                  captured := some target.piece, is_ep := false, is_castle := false } :=
  ⟨hf64, ht64, hne, ⟨piece, color⟩, hocc, hside,
    fun hp _ => hdiffOK hp,
    ⟨Or.inr ⟨target, htarget, by rw [← hside]; exact eq_opposite_of_ne htc, rfl⟩, hpp⟩⟩

/-- `SoundMove` for an en-passant capture. -/
theorem sound_ep (b : Board) (fromSq toV : Nat) (color : Color)
    (hf64 : fromSq < 64) (ht64 : toV < 64) (hne : fromSq ≠ toV)
    (hocc : getSq b.squares fromSq = some ⟨Piece.Pawn, color⟩) (hside : color = b.side)
    (hep : b.ep_square = some toV)
    (hW : b.side = Color.White → 8 ≤ toV ∧ toV - 8 ≠ fromSq)
    (hB : b.side = Color.Black → toV + 8 < 64 ∧ toV + 8 ≠ fromSq)
    (hdiffOK : ((toV : Int) - (fromSq : Int)).natAbs ≠ 16) :
    SoundMove b { fromSq := fromSq, toSq := toV, promotion := none,
                  captured := some Piece.Pawn, is_ep := true, is_castle := false } :=
  ⟨hf64, ht64, hne, ⟨Piece.Pawn, color⟩, hocc, hside,
    fun _ _ => hdiffOK, ⟨hep, rfl, hW, hB⟩⟩

/-- `SoundMove` for a castle. -/
theorem sound_castle (b : Board) (fromSq toV : Nat) (color : Color)
    (hf64 : fromSq < 64) (ht64 : toV < 64) (hne : fromSq ≠ toV)
    (hocc : getSq b.squares fromSq = some ⟨Piece.King, color⟩) (hside : color = b.side)
    (hgeom : fromSq = 4 ∧ toV = 6 ∨ fromSq = 4 ∧ toV = 2 ∨
             fromSq = 60 ∧ toV = 62 ∨ fromSq = 60 ∧ toV = 58)
    (hta : getSq b.squares toV = none)
    (hrt : getSq b.squares (if fromSq < toV then fromSq + 1 else fromSq - 1) = none) :
    SoundMove b { fromSq := fromSq, toSq := toV, promotion := none,
                  captured := none, is_ep := false, is_castle := true } :=
  ⟨hf64, ht64, hne, ⟨Piece.King, color⟩, hocc, hside,
    fun hp _ => by simp at hp, ⟨hgeom, hta, hrt, rfl, rfl⟩⟩

theorem mem_ite_cases {α : Type} {c : Prop} [Decidable c] {l1 l2 : List α} {a : α}
    (h : a ∈ (if c then l1 else l2)) : (c ∧ a ∈ l1) ∨ (¬c ∧ a ∈ l2) := by
  split at h
  · exact Or.inl ⟨‹_›, h⟩
  · exact Or.inr ⟨‹_›, h⟩

theorem mem_ite_nil_elim {α : Type} {c : Prop} [Decidable c] {l : List α} {a : α}
    (h : a ∈ (if c then l else [])) : c ∧ a ∈ l := by
  rcases mem_ite_cases h with ⟨hc, h⟩ | ⟨_, h⟩
  · exact ⟨hc, h⟩
  · exact absurd h (List.not_mem_nil a)

theorem mem_ite_nil_elim2 {α : Type} {c : Prop} [Decidable c] {l : List α} {a : α}
    (h : a ∈ (if c then [] else l)) : ¬c ∧ a ∈ l := by
  rcases mem_ite_cases h with ⟨_, h⟩ | ⟨hc, h⟩
  · exact absurd h (List.not_mem_nil a)
  · exact ⟨hc, h⟩

theorem gen_pawn_sound (b : Board) (fromSq : Nat) (color : Color) (m : Move)
    (hf64 : fromSq < 64) (hocc : getSq b.squares fromSq = some ⟨Piece.Pawn, color⟩)
    (hside : color = b.side) (hm : m ∈ gen_pawn_moves b fromSq color) :
    SoundMove b m := by
  unfold gen_pawn_moves at hm
  cases color with
  | White =>
    have hd : (if Color.White = Color.White then (1 : Int) else -1) = 1 := rfl
    have hs : (if Color.White = Color.White then (1 : Int) else 6) = 1 := rfl
    have hp : (if Color.White = Color.White then (7 : Int) else 0) = 7 := rfl
    simp only [hd, hs, hp, eq_self_iff_true, if_true, if_false] at hm
    rcases List.mem_append.1 hm with hpu | hcp
    · obtain ⟨hbnd, hpu⟩ := mem_ite_nil_elim hpu
      obtain ⟨hempty, hpu⟩ := mem_ite_nil_elim hpu
      rcases mem_ite_cases hpu with ⟨hpr, hpu⟩ | ⟨hpr, hpu⟩
      · obtain ⟨promo, hpmem, rfl⟩ := List.mem_map.1 hpu
        exact sound_quiet b fromSq _ Piece.Pawn Color.White hf64 (by omega) (by omega)
          hocc hside hempty (some promo) (fun _ => rfl)
      · rcases List.mem_cons.1 hpu with rfl | hdbl
        · exact sound_quiet b fromSq _ Piece.Pawn Color.White hf64 (by omega) (by omega)
            hocc hside hempty none (by simp)
        · obtain ⟨hstart, hdbl⟩ := mem_ite_nil_elim hdbl
          obtain ⟨hempty2, hdbl⟩ := mem_ite_nil_elim hdbl
          rw [List.mem_singleton] at hdbl
          subst hdbl
          exact sound_quiet b fromSq _ Piece.Pawn Color.White hf64 (by omega)
            (by omega) hocc hside hempty2 none (by simp)
    · obtain ⟨df, hdf, hm2⟩ := List.mem_flatMap.1 hcp
      have hdf2 : df = -1 ∨ df = 1 := by simpa using hdf
      obtain ⟨hbnd, hm2⟩ := mem_ite_nil_elim2 hm2
      rcases List.mem_append.1 hm2 with hnc | hec
      · rcases htv : getSq b.squares (((↑fromSq / 8 + 1) * 8 + (↑fromSq % 8 + df)).toNat)
          with _ | target
        · rw [htv] at hnc
          exact absurd hnc (List.not_mem_nil m)
        · rw [htv] at hnc
          dsimp only at hnc
          obtain ⟨htc, hnc⟩ := mem_ite_nil_elim hnc
          rcases mem_ite_cases hnc with ⟨hpr, hnc⟩ | ⟨hpr, hnc⟩
          · obtain ⟨promo, hpmem, rfl⟩ := List.mem_map.1 hnc
            exact sound_capture b fromSq _ Piece.Pawn Color.White target hf64 (by omega)
              (by omega) hocc hside htv htc (some promo) (fun _ => rfl)
              (fun _ => by omega)
          · rw [List.mem_singleton] at hnc
            subst hnc
            exact sound_capture b fromSq _ Piece.Pawn Color.White target hf64 (by omega)
              (by omega) hocc hside htv htc none (by simp) (fun _ => by omega)
      · obtain ⟨hepsq, hec⟩ := mem_ite_nil_elim hec
        rw [List.mem_singleton] at hec
        subst hec
        exact sound_ep b fromSq _ Color.White hf64 (by omega) (by omega) hocc hside hepsq
          (fun _ => by constructor <;> omega)
          (fun h => (Color.noConfusion (hside.trans h)))
          (by omega)
  | Black =>
    have hd : (if Color.Black = Color.White then (1 : Int) else -1) = -1 := rfl
    have hs : (if Color.Black = Color.White then (1 : Int) else 6) = 6 := rfl
    have hp : (if Color.Black = Color.White then (7 : Int) else 0) = 0 := rfl
    have hne : (Color.Black = Color.White) = False := by simp
    simp only [hd, hs, hp, hne, if_true, if_false] at hm
    rcases List.mem_append.1 hm with hpu | hcp
    · obtain ⟨hbnd, hpu⟩ := mem_ite_nil_elim hpu
      obtain ⟨hempty, hpu⟩ := mem_ite_nil_elim hpu
      rcases mem_ite_cases hpu with ⟨hpr, hpu⟩ | ⟨hpr, hpu⟩
      · obtain ⟨promo, hpmem, rfl⟩ := List.mem_map.1 hpu
        exact sound_quiet b fromSq _ Piece.Pawn Color.Black hf64 (by omega) (by omega)
          hocc hside hempty (some promo) (fun _ => rfl)
      · rcases List.mem_cons.1 hpu with rfl | hdbl
        · exact sound_quiet b fromSq _ Piece.Pawn Color.Black hf64 (by omega) (by omega)
            hocc hside hempty none (by simp)
        · obtain ⟨hstart, hdbl⟩ := mem_ite_nil_elim hdbl
          obtain ⟨hempty2, hdbl⟩ := mem_ite_nil_elim hdbl
          rw [List.mem_singleton] at hdbl
          subst hdbl
          exact sound_quiet b fromSq _ Piece.Pawn Color.Black hf64 (by omega)
            (by omega) hocc hside hempty2 none (by simp)
    · obtain ⟨df, hdf, hm2⟩ := List.mem_flatMap.1 hcp
      have hdf2 : df = -1 ∨ df = 1 := by simpa using hdf
      obtain ⟨hbnd, hm2⟩ := mem_ite_nil_elim2 hm2
      rcases List.mem_append.1 hm2 with hnc | hec
      · rcases htv : getSq b.squares (((↑fromSq / 8 + -1) * 8 + (↑fromSq % 8 + df)).toNat)
          with _ | target
        · rw [htv] at hnc
          exact absurd hnc (List.not_mem_nil m)
        · rw [htv] at hnc
          dsimp only at hnc
          obtain ⟨htc, hnc⟩ := mem_ite_nil_elim hnc
          rcases mem_ite_cases hnc with ⟨hpr, hnc⟩ | ⟨hpr, hnc⟩
          · obtain ⟨promo, hpmem, rfl⟩ := List.mem_map.1 hnc
            exact sound_capture b fromSq _ Piece.Pawn Color.Black target hf64 (by omega)
              (by omega) hocc hside htv htc (some promo) (fun _ => rfl)
              (fun _ => by omega)
          · rw [List.mem_singleton] at hnc
            subst hnc
            exact sound_capture b fromSq _ Piece.Pawn Color.Black target hf64 (by omega)
              (by omega) hocc hside htv htc none (by simp) (fun _ => by omega)
      · obtain ⟨hepsq, hec⟩ := mem_ite_nil_elim hec
        rw [List.mem_singleton] at hec
        subst hec
        exact sound_ep b fromSq _ Color.Black hf64 (by omega) (by omega) hocc hside hepsq
          (fun h => (Color.noConfusion (hside.trans h)))
          (fun _ => by constructor <;> omega)
          (by omega)

theorem gen_leaper_sound (b : Board) (fromSq : Nat) (color : Color) (piece : Piece)
    (deltas : List (Int × Int)) (m : Move)
    (hf64 : fromSq < 64) (hocc : getSq b.squares fromSq = some ⟨piece, color⟩)
    (hside : color = b.side) (hnp : piece ≠ Piece.Pawn)
    (hdeltas : ∀ d ∈ deltas, ¬(d.1 = 0 ∧ d.2 = 0))
    (hm : m ∈ gen_leaper_moves b fromSq color deltas) :
    SoundMove b m := by
  unfold gen_leaper_moves at hm
  obtain ⟨d, hd, hm2⟩ := List.mem_flatMap.1 hm
  have hd0 := hdeltas d hd
  obtain ⟨hbnd, hm2⟩ := mem_ite_nil_elim2 hm2
  dsimp only at hm2
  rcases htv : getSq b.squares ((((fromSq : Int) / 8 + d.1) * 8 +
      ((fromSq : Int) % 8 + d.2)).toNat) with _ | target
  · rw [htv] at hm2
    obtain ⟨_, hm2⟩ := mem_ite_nil_elim hm2
    rw [List.mem_singleton] at hm2
    subst hm2
    exact sound_quiet b fromSq _ piece color hf64 (by omega) (by omega) hocc hside htv
      none (by simp)
  · rw [htv] at hm2
    obtain ⟨hcond, hm2⟩ := mem_ite_nil_elim hm2
    have htc : target.color ≠ color := by simpa using hcond
    rw [show ((some target).bind fun cp =>
        if cp.color ≠ color then some cp.piece else none) = some target.piece from
      if_pos htc] at hm2
    rw [List.mem_singleton] at hm2
    subst hm2
    exact sound_capture b fromSq _ piece color target hf64 (by omega) (by omega) hocc
      hside htv htc none (by simp) (fun hp => absurd hp hnp)

theorem sliderGenAux_sound (b : Board) (fromSq : Nat) (color : Color) (piece : Piece)
    (dr df : Int)
    (hf64 : fromSq < 64) (hocc : getSq b.squares fromSq = some ⟨piece, color⟩)
    (hside : color = b.side) (hnp : piece ≠ Piece.Pawn) (hd0 : ¬(dr = 0 ∧ df = 0)) :
    ∀ (fuel : Nat) (tr tf : Int),
      ((0 < dr → (fromSq : Int) / 8 < tr) ∧ (dr < 0 → tr < (fromSq : Int) / 8) ∧
       (dr = 0 → tr = (fromSq : Int) / 8) ∧
       (0 < df → (fromSq : Int) % 8 < tf) ∧ (df < 0 → tf < (fromSq : Int) % 8) ∧
       (df = 0 → tf = (fromSq : Int) % 8)) →
      ∀ m, m ∈ sliderGenAux b fromSq color dr df fuel tr tf → SoundMove b m := by
  intro fuel
  induction fuel with
  | zero =>
    intro tr tf _ m hm
    rw [sliderGenAux] at hm
    exact absurd hm (List.not_mem_nil m)
  | succ fuel ih =>
    intro tr tf hinv m hm
    rw [sliderGenAux] at hm
    obtain ⟨hbnd, hm⟩ := mem_ite_nil_elim hm
    dsimp only at hm
    obtain ⟨h1, h2, h3, h4, h5, h6⟩ := hinv
    have hne : fromSq ≠ (tr * 8 + tf).toNat := by
      rcases lt_trichotomy dr 0 with h | h | h
      · have := h2 h
        omega
      · have h7 : ¬(df = 0) := fun hdf => hd0 ⟨h, hdf⟩
        have h9 := h3 h
        rcases lt_trichotomy df 0 with h8 | h8 | h8
        · have := h5 h8
          omega
        · exact absurd h8 h7
        · have := h4 h8
          omega
      · have := h1 h
        omega
    rcases htv : getSq b.squares ((tr * 8 + tf).toNat) with _ | cp
    · rw [htv] at hm
      dsimp only at hm
      rcases List.mem_cons.1 hm with rfl | hrec
      · exact sound_quiet b fromSq _ piece color hf64 (by omega) hne hocc hside htv
          none (by simp)
      · refine ih (tr + dr) (tf + df) ⟨?_, ?_, ?_, ?_, ?_, ?_⟩ m hrec <;> intro h
        · have := h1 h
          omega
        · have := h2 h
          omega
        · have := h3 h
          omega
        · have := h4 h
          omega
        · have := h5 h
          omega
        · have := h6 h
          omega
    · rw [htv] at hm
      dsimp only at hm
      obtain ⟨htc, hm⟩ := mem_ite_nil_elim hm
      rw [List.mem_singleton] at hm
      subst hm
      exact sound_capture b fromSq _ piece color cp hf64 (by omega) hne hocc hside htv
        htc none (by simp) (fun hp => absurd hp hnp)

theorem gen_slider_sound (b : Board) (fromSq : Nat) (color : Color) (piece : Piece)
    (dirs : List (Int × Int)) (m : Move)
    (hf64 : fromSq < 64) (hocc : getSq b.squares fromSq = some ⟨piece, color⟩)
    (hside : color = b.side) (hnp : piece ≠ Piece.Pawn)
    (hdirs : ∀ d ∈ dirs, ¬(d.1 = 0 ∧ d.2 = 0))
    (hm : m ∈ gen_slider_moves b fromSq color dirs) :
    SoundMove b m := by
  unfold gen_slider_moves at hm
  obtain ⟨d, hd, hm2⟩ := List.mem_flatMap.1 hm
  have hd0 := hdirs d hd
  refine sliderGenAux_sound b fromSq color piece d.1 d.2 hf64 hocc hside hnp hd0 8
    ((fromSq : Int) / 8 + d.1) ((fromSq : Int) % 8 + d.2)
    ⟨?_, ?_, ?_, ?_, ?_, ?_⟩ m hm2 <;> intro h <;> omega

theorem gen_castling_sound (b : Board) (fromSq : Nat) (color : Color) (m : Move)
    (hocc : getSq b.squares fromSq = some ⟨Piece.King, color⟩)
    (hside : color = b.side) (hm : m ∈ gen_castling b fromSq color) :
    SoundMove b m := by
  unfold gen_castling at hm
  cases color with
  | White =>
    dsimp only at hm
    obtain ⟨hfk, hm⟩ := mem_ite_nil_elim2 hm
    have hf4 : fromSq = 4 := not_not.1 hfk
    subst hf4
    obtain ⟨_, hm⟩ := mem_ite_nil_elim2 hm
    rcases List.mem_append.1 hm with hks | hqs
    · obtain ⟨_, hks⟩ := mem_ite_nil_elim hks
      obtain ⟨hcond, hks⟩ := mem_ite_nil_elim hks
      rw [List.mem_singleton] at hks
      subst hks
      exact sound_castle b 4 (4 + 1 + 1) Color.White (by norm_num) (by norm_num)
        (by norm_num) hocc hside (Or.inl ⟨rfl, by norm_num⟩) hcond.2.1
        (by rw [if_pos (by norm_num : (4 : Nat) < 4 + 1 + 1)]; exact hcond.1)
    · obtain ⟨_, hqs⟩ := mem_ite_nil_elim hqs
      obtain ⟨hcond, hqs⟩ := mem_ite_nil_elim hqs
      rw [List.mem_singleton] at hqs
      subst hqs
      exact sound_castle b 4 (4 - 2) Color.White (by norm_num) (by norm_num)
        (by norm_num) hocc hside (Or.inr (Or.inl ⟨rfl, by norm_num⟩)) hcond.2.1
        (by rw [if_neg (by norm_num : ¬((4 : Nat) < 4 - 2))]; exact hcond.1)
  | Black =>
    dsimp only at hm
    obtain ⟨hfk, hm⟩ := mem_ite_nil_elim2 hm
    have hf4 : fromSq = 60 := not_not.1 hfk
    subst hf4
    obtain ⟨_, hm⟩ := mem_ite_nil_elim2 hm
    rcases List.mem_append.1 hm with hks | hqs
    · obtain ⟨_, hks⟩ := mem_ite_nil_elim hks
      obtain ⟨hcond, hks⟩ := mem_ite_nil_elim hks
      rw [List.mem_singleton] at hks
      subst hks
      exact sound_castle b 60 (60 + 1 + 1) Color.Black (by norm_num) (by norm_num)
        (by norm_num) hocc hside (Or.inr (Or.inr (Or.inl ⟨rfl, by norm_num⟩))) hcond.2.1
        (by rw [if_pos (by norm_num : (60 : Nat) < 60 + 1 + 1)]; exact hcond.1)
    · obtain ⟨_, hqs⟩ := mem_ite_nil_elim hqs
      obtain ⟨hcond, hqs⟩ := mem_ite_nil_elim hqs
      rw [List.mem_singleton] at hqs
      subst hqs
      exact sound_castle b 60 (60 - 2) Color.Black (by norm_num) (by norm_num)
        (by norm_num) hocc hside (Or.inr (Or.inr (Or.inr ⟨rfl, by norm_num⟩))) hcond.2.1
        (by rw [if_neg (by norm_num : ¬((60 : Nat) < 60 - 2))]; exact hcond.1)

theorem generate_pseudo_legal_sound (b : Board) (m : Move)
    (hm : m ∈ generate_pseudo_legal b) : SoundMove b m := by
  unfold generate_pseudo_legal at hm
  obtain ⟨fromSq, hfr, hm2⟩ := List.mem_flatMap.1 hm
  have hf64 : fromSq < 64 := List.mem_range.1 hfr
  rcases hocc : getSq b.squares fromSq with _ | cp
  · rw [hocc] at hm2
    exact absurd hm2 (List.not_mem_nil m)
  · obtain ⟨piece, pcolor⟩ := cp
    rw [hocc] at hm2
    dsimp only at hm2
    obtain ⟨hcs, hm2⟩ := mem_ite_nil_elim2 hm2
    have hside : pcolor = b.side := not_not.1 hcs
    cases piece with
    | Pawn => exact gen_pawn_sound b fromSq pcolor m hf64 hocc hside hm2
    | Knight =>
      exact gen_leaper_sound b fromSq pcolor Piece.Knight KNIGHT_DELTAS m hf64 hocc
        hside (by decide) (by decide) hm2
    | Bishop =>
      exact gen_slider_sound b fromSq pcolor Piece.Bishop BISHOP_DIRS m hf64 hocc
        hside (by decide) (by decide) hm2
    | Rook =>
      exact gen_slider_sound b fromSq pcolor Piece.Rook ROOK_DIRS m hf64 hocc
        hside (by decide) (by decide) hm2
    | Queen =>
      rcases List.mem_append.1 hm2 with h | h
      · exact gen_slider_sound b fromSq pcolor Piece.Queen BISHOP_DIRS m hf64 hocc
          hside (by decide) (by decide) h
      · exact gen_slider_sound b fromSq pcolor Piece.Queen ROOK_DIRS m hf64 hocc
          hside (by decide) (by decide) h
    | King =>
      rcases List.mem_append.1 hm2 with h | h
      · exact gen_leaper_sound b fromSq pcolor Piece.King KING_DELTAS m hf64 hocc
          hside (by decide) (by decide) h
      · exact gen_castling_sound b fromSq pcolor m hocc hside h

theorem generate_moves_sound (b : Board) (m : Move) (hm : m ∈ generate_moves b) :
    SoundMove b m :=
  generate_pseudo_legal_sound b m (List.mem_filter.1 hm).1

/-- **C1.** For every ep-consistent position (as every position reachable in a
legal game is) and every move returned by `generate_moves`, `make_move`
followed by `unmake_move` restores every `Board` field — squares, side,
castling, ep_square, halfmove, hash, history and position_hashes (hence also
the repetition stack's length) — exactly to its pre-make value. -/
theorem claim_C1 (b : Board) (m : Move) (hep : epConsistent b)
    (hm : m ∈ generate_moves b) : unmakeMove (makeMove b m) = b := by
  obtain ⟨hf64, ht64, hne, moving, hocc, hcolor, _, hshape⟩ := generate_moves_sound b m hm
  rcases hc : m.is_castle with _ | _
  · rw [hc, if_neg (by simp)] at hshape
    rcases he : m.is_ep with _ | _
    · rw [he, if_neg (by simp)] at hshape
      exact roundtrip_norm b m hf64 ht64 hne moving hocc hcolor hc he hshape
    · rw [he, if_pos rfl] at hshape
      exact roundtrip_ep b m hf64 ht64 hne moving hocc hcolor hc he hshape hep
  · rw [hc, if_pos rfl] at hshape
    exact roundtrip_castle b m moving hocc hc hshape

theorem claim_C1_witness :
    epConsistent kingsBoard ∧ kingsMove ∈ generate_moves kingsBoard ∧
      unmakeMove (makeMove kingsBoard kingsMove) = kingsBoard :=
  ⟨by decide, by decide, claim_C1 kingsBoard kingsMove (by decide) (by decide)⟩

theorem pieceCount_eq (s : Squares) :
    (∑ i ∈ Finset.range 64, if (getSq s i).isSome then (1 : ℕ) else 0) =
    ∑ i : Fin 64, if (s i).isSome then (1 : ℕ) else 0 := by
  rw [← Fin.sum_univ_eq_sum_range (fun i => if (getSq s i).isSome then (1 : ℕ) else 0) 64]
  refine Finset.sum_congr rfl fun i _ => ?_
  rw [getSq_lt s i.val i.isLt, Fin.eta]

theorem sum_ind_update (s : Squares) (j : Fin 64) (v : Option ColoredPiece) :
    (∑ i : Fin 64, if (Function.update s j v i).isSome then (1 : ℕ) else 0) +
      (if (s j).isSome then (1 : ℕ) else 0) =
    (∑ i : Fin 64, if (s i).isSome then (1 : ℕ) else 0) +
      (if v.isSome then (1 : ℕ) else 0) := by
  have h1 : (∑ i : Fin 64, if (Function.update s j v i).isSome then (1 : ℕ) else 0) =
      ∑ i : Fin 64, Function.update
        (fun i : Fin 64 => if (s i).isSome then (1 : ℕ) else 0) j
        (if v.isSome then (1 : ℕ) else 0) i :=
    Finset.sum_congr rfl fun i _ => by
      rcases eq_or_ne i j with rfl | h
      · simp
      · simp [Function.update_noteq h]
  rw [h1, Finset.sum_update_of_mem (Finset.mem_univ j),
    Finset.sum_eq_sum_diff_singleton_add (Finset.mem_univ j)
      (fun i : Fin 64 => if (s i).isSome then (1 : ℕ) else 0)]
  omega

/-- **C9.** Every move `qsearch` recurses on comes from `generate_captures`,
and on an ep-consistent board each such move strictly reduces the number of
pieces on the board, so the recursion is well-founded on remaining
material. -/
theorem claim_C9 (b : Board) (m : Move) (hep : epConsistent b)
    (hm : m ∈ generate_captures b) :
    pieceCount (makeMove b m) < pieceCount b := by
  have hmm := List.mem_filter.1 hm
  have hcap : (m.captured.isSome || m.is_ep) = true := by simpa using hmm.2
  obtain ⟨hf64, ht64, hne, moving, hocc, hcolor, _, hshape⟩ :=
    generate_moves_sound b m hmm.1
  have hner : (⟨m.fromSq, hf64⟩ : Fin 64) ≠ ⟨m.toSq, ht64⟩ :=
    fun h => hne (congrArg Fin.val h)
  have hbf : b.squares ⟨m.fromSq, hf64⟩ = some moving :=
    (getSq_lt b.squares m.fromSq hf64).symm.trans hocc
  have hpc2 : pieceCount b = ∑ i : Fin 64, if (b.squares i).isSome then (1 : ℕ) else 0 :=
    pieceCount_eq b.squares
  have htt : (if (true = true) then (1 : ℕ) else 0) = 1 := rfl
  have hff : (if (false = true) then (1 : ℕ) else 0) = 0 := rfl
  rcases hc : m.is_castle with _ | _
  · rw [hc, if_neg (by simp)] at hshape
    rcases he : m.is_ep with _ | _
    · rw [he, if_neg (by simp)] at hshape
      obtain ⟨hcapshape, _⟩ := hshape
      rcases hcapshape with ⟨htnone, hcnone⟩ | ⟨t, htsome, htcol, hcsome⟩
      · rw [hcnone, he] at hcap
        simp at hcap
      · have hbt : b.squares ⟨m.toSq, ht64⟩ = some t :=
          (getSq_lt b.squares m.toSq ht64).symm.trans htsome
        have hmsq := makeMove_squares_norm b m moving hocc hf64 ht64 hc he
        rcases hpm : m.promotion with _ | p
        · rw [hpm] at hmsq
          dsimp only at hmsq
          have e1 := sum_ind_update
            (Function.update b.squares ⟨m.toSq, ht64⟩ (some moving))
            ⟨m.fromSq, hf64⟩ none
          have e2 := sum_ind_update b.squares ⟨m.toSq, ht64⟩ (some moving)
          rw [Function.update_noteq hner, hbf] at e1
          rw [hbt] at e2
          simp only [Option.isSome_some, Option.isSome_none, htt, hff] at e1 e2
          have hpc1 : pieceCount (makeMove b m) =
              ∑ i : Fin 64, if ((Function.update
                (Function.update b.squares ⟨m.toSq, ht64⟩ (some moving))
                ⟨m.fromSq, hf64⟩ none) i).isSome then (1 : ℕ) else 0 := by
            unfold pieceCount
            rw [hmsq]
            exact pieceCount_eq _
          linarith
        · rw [hpm] at hmsq
          dsimp only at hmsq
          have e1 := sum_ind_update
            (Function.update b.squares ⟨m.toSq, ht64⟩ (some ⟨p, moving.color⟩))
            ⟨m.fromSq, hf64⟩ none
          have e2 := sum_ind_update b.squares ⟨m.toSq, ht64⟩ (some ⟨p, moving.color⟩)
          rw [Function.update_noteq hner, hbf] at e1
          rw [hbt] at e2
          simp only [Option.isSome_some, Option.isSome_none, htt, hff] at e1 e2
          have hpc1 : pieceCount (makeMove b m) =
              ∑ i : Fin 64, if ((Function.update
                (Function.update b.squares ⟨m.toSq, ht64⟩ (some ⟨p, moving.color⟩))
                ⟨m.fromSq, hf64⟩ none) i).isSome then (1 : ℕ) else 0 := by
            unfold pieceCount
            rw [hmsq]
            exact pieceCount_eq _
          linarith
    · rw [he, if_pos rfl] at hshape
      obtain ⟨hepsq, hprom, hW, hB⟩ := hshape
      obtain ⟨htnone, hbpawn⟩ := hep m.toSq hepsq
      obtain ⟨BA, hBA64, hBAeq, hbane, hbate⟩ :
          ∃ BA, BA < 64 ∧
            ((if b.side = Color.White then (m.toSq + 248) % 256
              else (m.toSq + 8) % 256) = BA) ∧
            BA ≠ m.fromSq ∧ BA ≠ m.toSq := by
        rcases hsd : b.side with _ | _
        · obtain ⟨h8, hnef⟩ := hW hsd
          refine ⟨m.toSq - 8, by omega, ?_, hnef, by omega⟩
          rw [if_pos rfl]
          omega
        · obtain ⟨hlt, hnef⟩ := hB hsd
          refine ⟨m.toSq + 8, by omega, ?_, hnef, by omega⟩
          rw [if_neg (by decide)]
          omega
      have hmsq := makeMove_squares_ep b m moving hocc hf64 ht64 hc he hprom BA hBA64 hBAeq
      rw [hBAeq] at hbpawn
      have hbfinf : (⟨BA, hBA64⟩ : Fin 64) ≠ ⟨m.fromSq, hf64⟩ :=
        fun h => hbane (congrArg Fin.val h)
      have hbfint : (⟨BA, hBA64⟩ : Fin 64) ≠ ⟨m.toSq, ht64⟩ :=
        fun h => hbate (congrArg Fin.val h)
      have hba : b.squares ⟨BA, hBA64⟩ = some ⟨Piece.Pawn, opposite b.side⟩ :=
        (getSq_lt b.squares BA hBA64).symm.trans hbpawn
      have hbt : b.squares ⟨m.toSq, ht64⟩ = none :=
        (getSq_lt b.squares m.toSq ht64).symm.trans htnone
      have e3 := sum_ind_update b.squares ⟨BA, hBA64⟩ none
      have e2 := sum_ind_update (Function.update b.squares ⟨BA, hBA64⟩ none)
        ⟨m.toSq, ht64⟩ (some moving)
      have e1 := sum_ind_update
        (Function.update (Function.update b.squares ⟨BA, hBA64⟩ none)
          ⟨m.toSq, ht64⟩ (some moving))
        ⟨m.fromSq, hf64⟩ none
      rw [hba] at e3
      rw [Function.update_noteq hbfint.symm, hbt] at e2
      rw [Function.update_noteq hner, Function.update_noteq hbfinf.symm, hbf] at e1
      simp only [Option.isSome_some, Option.isSome_none, htt, hff] at e1 e2 e3
      have hpc1 : pieceCount (makeMove b m) =
          ∑ i : Fin 64, if ((Function.update
            (Function.update (Function.update b.squares ⟨BA, hBA64⟩ none)
              ⟨m.toSq, ht64⟩ (some moving))
            ⟨m.fromSq, hf64⟩ none) i).isSome then (1 : ℕ) else 0 := by
        unfold pieceCount
        rw [hmsq]
        exact pieceCount_eq _
      linarith
  · rw [hc, if_pos rfl] at hshape
    obtain ⟨_, _, _, hcapn, hepf⟩ := hshape
    rw [hcapn, hepf] at hcap
    simp at hcap

theorem claim_C9_witness :
    epConsistent capBoard ∧ capMove ∈ generate_captures capBoard ∧
      pieceCount (makeMove capBoard capMove) < pieceCount capBoard :=
  ⟨by decide, by decide, claim_C9 capBoard capMove (by decide) (by decide)⟩

/-! ### Vertical-flip (`sq ^^^ 56`) reindexing toolkit -/

theorem xor56_lt : ∀ sq, sq < 64 → sq ^^^ 56 < 64 := by decide

theorem xor56_mod : ∀ sq, sq < 64 → (sq ^^^ 56) % 8 = sq % 8 := by decide

theorem xor56_div : ∀ sq, sq < 64 → (sq ^^^ 56) / 8 = 7 - sq / 8 := by decide

theorem rowcol_xor56 : ∀ r, r < 8 → ∀ f, f < 8 → (r * 8 + f) ^^^ 56 = (7 - r) * 8 + f := by
  decide

theorem xor56_invol (sq : Nat) : sq ^^^ 56 ^^^ 56 = sq := by
  simp [Nat.xor_assoc]

theorem flipGet (b : Board) (sq : Nat) (h : sq < 64) :
    getSq (flipBoard b).squares sq =
      (getSq b.squares (sq ^^^ 56)).map fun cp => ⟨cp.piece, opposite cp.color⟩ := by
  rw [getSq_lt _ _ h, getSq_lt _ _ (xor56_lt sq h)]
  rfl

set_option maxRecDepth 10000 in
theorem sum_flip (f : ℕ → Int) :
    ∑ sq ∈ Finset.range 64, f (sq ^^^ 56) = ∑ sq ∈ Finset.range 64, f sq := by
  have himg : (Finset.range 64).image (fun sq => sq ^^^ 56) = Finset.range 64 := by decide
  have hinj : ∀ x ∈ Finset.range 64, ∀ y ∈ Finset.range 64,
      x ^^^ 56 = y ^^^ 56 → x = y := by decide
  calc ∑ sq ∈ Finset.range 64, f (sq ^^^ 56)
      = ∑ sq ∈ (Finset.range 64).image (fun sq => sq ^^^ 56), f sq :=
        (Finset.sum_image hinj).symm
    _ = ∑ sq ∈ Finset.range 64, f sq := by rw [himg]

set_option maxRecDepth 10000 in
theorem perm_map_xor56 : ((List.range 64).map fun sq => sq ^^^ 56).Perm (List.range 64) := by
  decide

theorem perm_map_rev8 : ((List.range 8).map fun r => 7 - r).Perm (List.range 8) := by
  decide

theorem countP_flip (p : ℕ → Bool) :
    ((List.range 64).countP fun sq => p (sq ^^^ 56)) = (List.range 64).countP p := by
  have h1 := List.Perm.countP_eq p perm_map_xor56
  rw [List.countP_map] at h1
  exact h1

theorem perm_any {l l2 : List ℕ} (h : l.Perm l2) (p : ℕ → Bool) : l.any p = l2.any p := by
  cases hl : l.any p with
  | false =>
    cases hl2 : l2.any p with
    | false => rfl
    | true =>
      exfalso
      obtain ⟨x, hx, hpx⟩ := List.any_eq_true.1 hl2
      have h3 : l.any p = true := List.any_eq_true.2 ⟨x, h.mem_iff.2 hx, hpx⟩
      rw [hl] at h3
      exact Bool.noConfusion h3
  | true =>
    obtain ⟨x, hx, hpx⟩ := List.any_eq_true.1 hl
    exact (List.any_eq_true.2 ⟨x, h.mem_iff.1 hx, hpx⟩).symm

theorem any_flip8 (p : ℕ → Bool) :
    ((List.range 8).any fun r => p (7 - r)) = (List.range 8).any p := by
  have h1 := perm_any perm_map_rev8 p
  rw [List.any_map] at h1
  exact h1

theorem pst_blend_flip (sq : Nat) (c : Color) (op eg : List Int) (phase : Int) :
    pst_blend sq (opposite c) op eg phase = pst_blend (sq ^^^ 56) c op eg phase := by
  cases c with
  | White => rfl
  | Black =>
    show (op.getD sq 0 * phase + eg.getD sq 0 * (256 - phase)).tdiv 256 =
      (op.getD (sq ^^^ 56 ^^^ 56) 0 * phase +
        eg.getD (sq ^^^ 56 ^^^ 56) 0 * (256 - phase)).tdiv 256
    rw [xor56_invol]

theorem game_phase_flip (b : Board) : game_phase (flipBoard b) = game_phase b := by
  unfold game_phase
  dsimp only
  refine congrArg (fun m : Int => min ((m * 256).tdiv 28) 256) ?_
  have h1 : ∀ sq ∈ Finset.range 64,
      (match getSq (flipBoard b).squares sq with
       | some cp =>
         match cp.piece with
         | Piece.Knight | Piece.Bishop => (1 : Int)
         | Piece.Rook => 2
         | Piece.Queen => 4
         | _ => 0
       | none => 0) =
      (fun sq =>
        (match getSq b.squares sq with
         | some cp =>
           match cp.piece with
           | Piece.Knight | Piece.Bishop => (1 : Int)
           | Piece.Rook => 2
           | Piece.Queen => 4
           | _ => 0
         | none => 0)) (sq ^^^ 56) := by
    intro sq hsq
    rw [flipGet b sq (Finset.mem_range.1 hsq)]
    dsimp only
    rcases getSq b.squares (sq ^^^ 56) with _ | cp
    · rfl
    · rcases cp with ⟨piece, color⟩
      cases piece <;> rfl
  exact (Finset.sum_congr rfl h1).trans (sum_flip (fun sq =>
    match getSq b.squares sq with
    | some cp =>
      match cp.piece with
      | Piece.Knight | Piece.Bishop => (1 : Int)
      | Piece.Rook => 2
      | Piece.Queen => 4
      | _ => 0
    | none => 0))

theorem base_flip (b : Board) (phase : Int) :
    (∑ sq ∈ Finset.range 64,
      (match getSq (flipBoard b).squares sq with
       | none => 0
       | some cp =>
         let val :=
           match cp.piece with
           | Piece.Pawn => VAL_PAWN + pst_blend sq cp.color PAWN_OP PAWN_EG phase
           | Piece.Knight => VAL_KNIGHT + pst_blend sq cp.color KNIGHT_OP KNIGHT_EG phase
           | Piece.Bishop => VAL_BISHOP + pst_blend sq cp.color BISHOP_OP BISHOP_EG phase
           | Piece.Rook => VAL_ROOK + pst_blend sq cp.color ROOK_OP ROOK_EG phase
           | Piece.Queen => VAL_QUEEN + pst_blend sq cp.color QUEEN_OP QUEEN_EG phase
           | Piece.King => 0 + pst_blend sq cp.color KING_OP KING_EG phase
         if cp.color = Color.White then val else -val)) =
    -∑ sq ∈ Finset.range 64,
      (match getSq b.squares sq with
       | none => 0
       | some cp =>
         let val :=
           match cp.piece with
           | Piece.Pawn => VAL_PAWN + pst_blend sq cp.color PAWN_OP PAWN_EG phase
           | Piece.Knight => VAL_KNIGHT + pst_blend sq cp.color KNIGHT_OP KNIGHT_EG phase
           | Piece.Bishop => VAL_BISHOP + pst_blend sq cp.color BISHOP_OP BISHOP_EG phase
           | Piece.Rook => VAL_ROOK + pst_blend sq cp.color ROOK_OP ROOK_EG phase
           | Piece.Queen => VAL_QUEEN + pst_blend sq cp.color QUEEN_OP QUEEN_EG phase
           | Piece.King => 0 + pst_blend sq cp.color KING_OP KING_EG phase
         if cp.color = Color.White then val else -val) := by
  have h1 : ∀ sq ∈ Finset.range 64,
      (match getSq (flipBoard b).squares sq with
       | none => 0
       | some cp =>
         let val :=
           match cp.piece with
           | Piece.Pawn => VAL_PAWN + pst_blend sq cp.color PAWN_OP PAWN_EG phase
           | Piece.Knight => VAL_KNIGHT + pst_blend sq cp.color KNIGHT_OP KNIGHT_EG phase
           | Piece.Bishop => VAL_BISHOP + pst_blend sq cp.color BISHOP_OP BISHOP_EG phase
           | Piece.Rook => VAL_ROOK + pst_blend sq cp.color ROOK_OP ROOK_EG phase
           | Piece.Queen => VAL_QUEEN + pst_blend sq cp.color QUEEN_OP QUEEN_EG phase
           | Piece.King => 0 + pst_blend sq cp.color KING_OP KING_EG phase
         if cp.color = Color.White then val else -val) =
      (fun sq =>
        -(match getSq b.squares sq with
       | none => 0
       | some cp =>
         let val :=
           match cp.piece with
           | Piece.Pawn => VAL_PAWN + pst_blend sq cp.color PAWN_OP PAWN_EG phase
           | Piece.Knight => VAL_KNIGHT + pst_blend sq cp.color KNIGHT_OP KNIGHT_EG phase
           | Piece.Bishop => VAL_BISHOP + pst_blend sq cp.color BISHOP_OP BISHOP_EG phase
           | Piece.Rook => VAL_ROOK + pst_blend sq cp.color ROOK_OP ROOK_EG phase
           | Piece.Queen => VAL_QUEEN + pst_blend sq cp.color QUEEN_OP QUEEN_EG phase
           | Piece.King => 0 + pst_blend sq cp.color KING_OP KING_EG phase
         if cp.color = Color.White then val else -val)) (sq ^^^ 56) := by
    intro sq hsq
    rw [flipGet b sq (Finset.mem_range.1 hsq)]
    dsimp only
    rcases getSq b.squares (sq ^^^ 56) with _ | cp
    · simp
    · rcases cp with ⟨piece, color⟩
      simp only [Option.map_some']
      cases color with
      | White => cases piece <;> (dsimp only; rw [pst_blend_flip]; simp [opposite])
      | Black => cases piece <;> (dsimp only; rw [pst_blend_flip]; simp [opposite])
  refine (Finset.sum_congr rfl h1).trans ?_
  rw [sum_flip (fun sq =>
    -(match getSq b.squares sq with
       | none => 0
       | some cp =>
         let val :=
           match cp.piece with
           | Piece.Pawn => VAL_PAWN + pst_blend sq cp.color PAWN_OP PAWN_EG phase
           | Piece.Knight => VAL_KNIGHT + pst_blend sq cp.color KNIGHT_OP KNIGHT_EG phase
           | Piece.Bishop => VAL_BISHOP + pst_blend sq cp.color BISHOP_OP BISHOP_EG phase
           | Piece.Rook => VAL_ROOK + pst_blend sq cp.color ROOK_OP ROOK_EG phase
           | Piece.Queen => VAL_QUEEN + pst_blend sq cp.color QUEEN_OP QUEEN_EG phase
           | Piece.King => 0 + pst_blend sq cp.color KING_OP KING_EG phase
         if cp.color = Color.White then val else -val))]
  exact Finset.sum_neg_distrib

theorem beq_opposite (x c : Color) : (opposite x == c) = (x == opposite c) := by
  cases x <;> cases c <;> rfl

theorem countP_congr2 {l : List ℕ} {p q : ℕ → Bool} (h : ∀ a ∈ l, p a = q a) :
    l.countP p = l.countP q := by
  rw [List.countP_eq_length_filter, List.countP_eq_length_filter, List.filter_congr h]

theorem file_cnt_flip (b : Board) (c : Color) (f : Nat) :
    file_cnt (flipBoard b) c f = file_cnt b (opposite c) f := by
  unfold file_cnt
  have h1 : ∀ sq ∈ List.range 64,
      (fun sq =>
        match getSq (flipBoard b).squares sq with
        | some cp => cp.piece == Piece.Pawn && cp.color == c && sq % 8 == f
        | none => false) sq =
      ((fun sq =>
        match getSq b.squares sq with
        | some cp => cp.piece == Piece.Pawn && cp.color == opposite c && sq % 8 == f
        | none => false) (sq ^^^ 56)) := by
    intro sq hsq
    have h64 : sq < 64 := List.mem_range.1 hsq
    dsimp only
    rw [flipGet b sq h64]
    rcases getSq b.squares (sq ^^^ 56) with _ | cp
    · rfl
    · rcases cp with ⟨piece, color⟩
      simp only [Option.map_some']
      rw [xor56_mod sq h64, beq_opposite]
  exact (countP_congr2 h1).trans (countP_flip (fun sq =>
    match getSq b.squares sq with
    | some cp => cp.piece == Piece.Pawn && cp.color == opposite c && sq % 8 == f
    | none => false))

theorem pawn_structure_flip (b : Board) (c : Color) :
    pawn_structure (flipBoard b) c = pawn_structure b (opposite c) := by
  have hfc : ∀ f, file_cnt (flipBoard b) c f = file_cnt b (opposite c) f :=
    file_cnt_flip b c
  unfold pawn_structure
  refine Finset.sum_congr rfl fun f _ => ?_
  simp only [hfc]

theorem bishop_pair_flip (b : Board) (c : Color) :
    bishop_pair (flipBoard b) c = bishop_pair b (opposite c) := by
  unfold bishop_pair
  dsimp only
  refine congrArg (fun n : ℕ => if 2 ≤ n then (30 : Int) else 0) ?_
  have h1 : ∀ sq ∈ List.range 64,
      (fun sq =>
        match getSq (flipBoard b).squares sq with
        | some cp => cp.color == c && cp.piece == Piece.Bishop
        | none => false) sq =
      ((fun sq =>
        match getSq b.squares sq with
        | some cp => cp.color == opposite c && cp.piece == Piece.Bishop
        | none => false) (sq ^^^ 56)) := by
    intro sq hsq
    have h64 : sq < 64 := List.mem_range.1 hsq
    dsimp only
    rw [flipGet b sq h64]
    rcases getSq b.squares (sq ^^^ 56) with _ | cp
    · rfl
    · rcases cp with ⟨piece, color⟩
      simp only [Option.map_some']
      rw [beq_opposite]
  exact (countP_congr2 h1).trans (countP_flip (fun sq =>
    match getSq b.squares sq with
    | some cp => cp.color == opposite c && cp.piece == Piece.Bishop
    | none => false))

theorem bne_opposite (x c : Color) : (opposite x != c) = (x != opposite c) := by
  cases x <;> cases c <;> rfl

theorem any_congr {l : List ℕ} {p q : ℕ → Bool} (h : ∀ a ∈ l, p a = q a) :
    l.any p = l.any q := by
  induction l with
  | nil => rfl
  | cons a l ih =>
    simp only [List.any_cons, h a (by simp)]
    rw [ih fun x hx => h x (by simp [hx])]

/-- Pawn scans down a file mirror: the flipped board has a `c` pawn on file
`f`, row `r` iff the original has an `opposite c` pawn there (rows
reversed, which `any` over the full row range absorbs). -/
theorem pawn_scan_flip (b : Board) (c : Color) (f : Nat) (hf : f < 8) :
    ((List.range 8).any fun r =>
      match getSq (flipBoard b).squares (r * 8 + f) with
      | some p => p.piece == Piece.Pawn && p.color == c
      | none => false) =
    ((List.range 8).any fun r =>
      match getSq b.squares (r * 8 + f) with
      | some p => p.piece == Piece.Pawn && p.color == opposite c
      | none => false) := by
  rw [← any_flip8 (fun r =>
    match getSq b.squares (r * 8 + f) with
    | some p => p.piece == Piece.Pawn && p.color == opposite c
    | none => false)]
  refine any_congr fun r hr => ?_
  have hr8 : r < 8 := List.mem_range.1 hr
  rw [flipGet b (r * 8 + f) (by omega), rowcol_xor56 r hr8 f hf]
  rcases getSq b.squares ((7 - r) * 8 + f) with _ | p
  · rfl
  · simp only [Option.map_some']
    rw [beq_opposite]

theorem pawn_scan_flip_ne (b : Board) (c : Color) (f : Nat) (hf : f < 8) :
    ((List.range 8).any fun r =>
      match getSq (flipBoard b).squares (r * 8 + f) with
      | some p => p.piece == Piece.Pawn && p.color != c
      | none => false) =
    ((List.range 8).any fun r =>
      match getSq b.squares (r * 8 + f) with
      | some p => p.piece == Piece.Pawn && p.color != opposite c
      | none => false) := by
  rw [← any_flip8 (fun r =>
    match getSq b.squares (r * 8 + f) with
    | some p => p.piece == Piece.Pawn && p.color != opposite c
    | none => false)]
  refine any_congr fun r hr => ?_
  have hr8 : r < 8 := List.mem_range.1 hr
  rw [flipGet b (r * 8 + f) (by omega), rowcol_xor56 r hr8 f hf]
  rcases getSq b.squares ((7 - r) * 8 + f) with _ | p
  · rfl
  · simp only [Option.map_some']
    rw [bne_opposite]

theorem rook_bonus_flip (b : Board) (c : Color) :
    rook_bonus (flipBoard b) c = rook_bonus b (opposite c) := by
  unfold rook_bonus
  dsimp only
  have h1 : ∀ sq ∈ Finset.range 64,
      (match getSq (flipBoard b).squares sq with
       | none => (0 : Int)
       | some cp =>
         if cp.color ≠ c ∨ cp.piece ≠ Piece.Rook then 0
         else
           (if !((List.range 8).any fun r =>
                 match getSq (flipBoard b).squares (r * 8 + sq % 8) with
                 | some p => p.piece == Piece.Pawn && p.color == c
                 | none => false) &&
                !((List.range 8).any fun r =>
                 match getSq (flipBoard b).squares (r * 8 + sq % 8) with
                 | some p => p.piece == Piece.Pawn && p.color != c
                 | none => false) then (20 : Int)
            else if !((List.range 8).any fun r =>
                 match getSq (flipBoard b).squares (r * 8 + sq % 8) with
                 | some p => p.piece == Piece.Pawn && p.color == c
                 | none => false) then (10 : Int)
            else 0) +
           (if sq / 8 = (if c = Color.White then 6 else 1) then (25 : Int) else 0)) =
      (fun sq =>
    (match getSq b.squares sq with
     | none => (0 : Int)
     | some cp =>
       if cp.color ≠ opposite c ∨ cp.piece ≠ Piece.Rook then 0
       else
         (if !((List.range 8).any fun r =>
               match getSq b.squares (r * 8 + sq % 8) with
               | some p => p.piece == Piece.Pawn && p.color == opposite c
               | none => false) &&
              !((List.range 8).any fun r =>
               match getSq b.squares (r * 8 + sq % 8) with
               | some p => p.piece == Piece.Pawn && p.color != opposite c
               | none => false) then (20 : Int)
          else if !((List.range 8).any fun r =>
               match getSq b.squares (r * 8 + sq % 8) with
               | some p => p.piece == Piece.Pawn && p.color == opposite c
               | none => false) then (10 : Int)
          else 0) +
         (if sq / 8 = (if opposite c = Color.White then 6 else 1) then (25 : Int) else 0))) (sq ^^^ 56) := by
    intro sq hsq
    have h64 : sq < 64 := Finset.mem_range.1 hsq
    have hmod : sq % 8 < 8 := Nat.mod_lt _ (by norm_num)
    dsimp only
    rw [flipGet b sq h64]
    rcases getSq b.squares (sq ^^^ 56) with _ | cp
    · rfl
    · rcases cp with ⟨piece, color0⟩
      simp only [Option.map_some']
      rw [xor56_mod sq h64, xor56_div sq h64]
      rw [pawn_scan_flip b c (sq % 8) hmod, pawn_scan_flip_ne b c (sq % 8) hmod]
      have hiffA : (opposite color0 ≠ c ∨ piece ≠ Piece.Rook) ↔
          (color0 ≠ opposite c ∨ piece ≠ Piece.Rook) := by
        cases color0 <;> cases c <;> simp [opposite]
      have hiffB : (sq / 8 = (if c = Color.White then 6 else 1)) ↔
          (7 - sq / 8 = (if opposite c = Color.White then 6 else 1)) := by
        cases c <;> simp [opposite] <;> omega
      simp only [hiffA, hiffB]
  exact (Finset.sum_congr rfl h1).trans (sum_flip (fun sq =>
    (match getSq b.squares sq with
     | none => (0 : Int)
     | some cp =>
       if cp.color ≠ opposite c ∨ cp.piece ≠ Piece.Rook then 0
       else
         (if !((List.range 8).any fun r =>
               match getSq b.squares (r * 8 + sq % 8) with
               | some p => p.piece == Piece.Pawn && p.color == opposite c
               | none => false) &&
              !((List.range 8).any fun r =>
               match getSq b.squares (r * 8 + sq % 8) with
               | some p => p.piece == Piece.Pawn && p.color != opposite c
               | none => false) then (20 : Int)
          else if !((List.range 8).any fun r =>
               match getSq b.squares (r * 8 + sq % 8) with
               | some p => p.piece == Piece.Pawn && p.color == opposite c
               | none => false) then (10 : Int)
          else 0) +
         (if sq / 8 = (if opposite c = Color.White then 6 else 1) then (25 : Int) else 0))))

theorem find_king_pred (s : Squares) (color : Color) (sq : Nat) :
    ((fun sq =>
      match getSq s sq with
      | some cp => cp.piece = Piece.King && cp.color = color
      | none => false) sq = true) ↔ getSq s sq = some ⟨Piece.King, color⟩ := by
  dsimp only
  rcases h : getSq s sq with _ | cp
  · simp
  · rcases cp with ⟨piece, pcolor⟩
    simp only [Option.some.injEq, Bool.and_eq_true, decide_eq_true_eq]
    constructor
    · rintro ⟨h1, h2⟩
      rw [h1, h2]
    · intro h1
      injection h1 with hp hc
      exact ⟨hp, hc⟩

theorem opposite_inj {x : Color} {c : Color} (h : opposite x = c) : x = opposite c := by
  cases x <;> cases c <;> simp_all [opposite]

theorem find_king_flip (b : Board) (c : Color) (huniq : kingUnique b (opposite c)) :
    find_king (flipBoard b).squares c =
      (find_king b.squares (opposite c)).map fun k => k ^^^ 56 := by
  unfold find_king
  rcases h2 : (List.range 64).find? (fun sq =>
      match getSq b.squares sq with
      | some cp => cp.piece = Piece.King && cp.color = opposite c
      | none => false) with _ | j
  · rcases h1 : (List.range 64).find? (fun sq =>
        match getSq (flipBoard b).squares sq with
        | some cp => cp.piece = Piece.King && cp.color = c
        | none => false) with _ | k
    · rfl
    · exfalso
      have hk := List.find?_some h1
      have hk64 : k < 64 := List.mem_range.1 (List.mem_of_find?_eq_some h1)
      have hx : getSq (flipBoard b).squares k = some ⟨Piece.King, c⟩ :=
        (find_king_pred _ c k).1 hk
      rw [flipGet b k hk64] at hx
      rcases hb : getSq b.squares (k ^^^ 56) with _ | cp
      · rw [hb] at hx
        simp at hx
      · rw [hb] at hx
        simp only [Option.map_some', Option.some.injEq] at hx
        rcases cp with ⟨piece, pcolor⟩
        dsimp only at hx
        injection hx with hp hc
        have hbk : getSq b.squares (k ^^^ 56) = some ⟨Piece.King, opposite c⟩ := by
          rw [hb, hp, opposite_inj hc]
        exact (List.find?_eq_none.1 h2 (k ^^^ 56)
            (List.mem_range.2 (xor56_lt k hk64)))
          ((find_king_pred _ (opposite c) (k ^^^ 56)).2 hbk)
  · have hj := List.find?_some h2
    have hj64 : j < 64 := List.mem_range.1 (List.mem_of_find?_eq_some h2)
    have hbj : getSq b.squares j = some ⟨Piece.King, opposite c⟩ :=
      (find_king_pred _ _ j).1 hj
    have hfk : getSq (flipBoard b).squares (j ^^^ 56) = some ⟨Piece.King, c⟩ := by
      rw [flipGet b (j ^^^ 56) (xor56_lt j hj64), xor56_invol, hbj]
      simp only [Option.map_some', Option.some.injEq]
      rw [opposite_opposite]
    rcases h1 : (List.range 64).find? (fun sq =>
        match getSq (flipBoard b).squares sq with
        | some cp => cp.piece = Piece.King && cp.color = c
        | none => false) with _ | k
    · exact absurd ((find_king_pred _ c (j ^^^ 56)).2 hfk)
        (List.find?_eq_none.1 h1 (j ^^^ 56) (List.mem_range.2 (xor56_lt j hj64)))
    · have hk := List.find?_some h1
      have hk64 : k < 64 := List.mem_range.1 (List.mem_of_find?_eq_some h1)
      have hx : getSq (flipBoard b).squares k = some ⟨Piece.King, c⟩ :=
        (find_king_pred _ c k).1 hk
      rw [flipGet b k hk64] at hx
      rcases hb : getSq b.squares (k ^^^ 56) with _ | cp
      · rw [hb] at hx
        simp at hx
      · rw [hb] at hx
        simp only [Option.map_some', Option.some.injEq] at hx
        rcases cp with ⟨piece, pcolor⟩
        dsimp only at hx
        injection hx with hp hc
        have hbk : getSq b.squares (k ^^^ 56) = some ⟨Piece.King, opposite c⟩ := by
          rw [hb, hp, opposite_inj hc]
        have hkey := huniq (k ^^^ 56) (xor56_lt k hk64) j hj64 hbk hbj
        simp only [Option.map_some', Option.some.injEq]
        rw [← hkey, xor56_invol]

theorem king_safety_flip (b : Board) (c : Color) (phase : Int)
    (huniq : kingUnique b (opposite c)) :
    king_safety (flipBoard b) c phase = king_safety b (opposite c) phase := by
  unfold king_safety
  by_cases hph : phase < 60
  · rw [if_pos hph, if_pos hph]
  · rw [if_neg hph, if_neg hph, find_king_flip b c huniq]
    rcases hfk : find_king b.squares (opposite c) with _ | k
    · rfl
    · simp only [Option.map_some']
      have hk64 : k < 64 := by
        unfold find_king at hfk
        exact List.mem_range.1 (List.mem_of_find?_eq_some hfk)
      have hkf : ((k ^^^ 56 : ℕ) : ℤ) % 8 = ((k : ℕ) : ℤ) % 8 := by
        have h1 := xor56_mod k hk64
        omega
      rw [hkf]
      congr 1
      congr 1
      refine List.map_congr_left fun df hdf => ?_
      dsimp only
      by_cases hb2 : (k : ℤ) % 8 + df < 0 ∨ 8 ≤ (k : ℤ) % 8 + df
      · rw [if_pos hb2, if_pos hb2]
      · rw [if_neg hb2, if_neg hb2]
        have hflt : ((k : ℤ) % 8 + df).toNat < 8 := by omega
        rw [pawn_scan_flip b c (((k : ℤ) % 8 + df).toNat) hflt]

theorem sliderMobAux_flip (b : Board) (c : Color) (dr df : Int) :
    ∀ (fuel : Nat) (tr tf : Int),
      sliderMobAux (flipBoard b).squares c dr df fuel tr tf =
      sliderMobAux b.squares (opposite c) (-dr) df fuel (7 - tr) tf := by
  intro fuel
  induction fuel with
  | zero => intro tr tf; rfl
  | succ fuel ih =>
    intro tr tf
    rw [sliderMobAux, sliderMobAux]
    by_cases hb2 : 0 ≤ tr ∧ tr < 8 ∧ 0 ≤ tf ∧ tf < 8
    · rw [if_pos hb2, if_pos (by omega : 0 ≤ 7 - tr ∧ 7 - tr < 8 ∧ 0 ≤ tf ∧ tf < 8)]
      have ht64 : (tr * 8 + tf).toNat < 64 := by omega
      have hxor : (tr * 8 + tf).toNat ^^^ 56 = ((7 - tr) * 8 + tf).toNat := by
        have h1 : (tr * 8 + tf).toNat = tr.toNat * 8 + tf.toNat := by omega
        have h2 : ((7 - tr) * 8 + tf).toNat = (7 - tr.toNat) * 8 + tf.toNat := by omega
        rw [h1, h2]
        exact rowcol_xor56 tr.toNat (by omega) tf.toNat (by omega)
      rw [flipGet b _ ht64, hxor]
      rcases getSq b.squares (((7 - tr) * 8 + tf).toNat) with _ | cp
      · simp only [Option.map_none']
        rw [ih (tr + dr) (tf + df),
          show (7 : ℤ) - (tr + dr) = 7 - tr + -dr from by ring]
      · simp only [Option.map_some']
        rcases cp with ⟨piece, pcolor⟩
        dsimp only
        have hiff : (opposite pcolor ≠ c) ↔ (pcolor ≠ opposite c) := by
          cases pcolor <;> cases c <;> simp [opposite]
        simp only [hiff]
    · rw [if_neg hb2, if_neg (by omega : ¬(0 ≤ 7 - tr ∧ 7 - tr < 8 ∧ 0 ≤ tf ∧ tf < 8))]

theorem slider_mob_flip (b : Board) (fromSq : Nat) (c : Color) (h64 : fromSq < 64)
    (dirs : List (Int × Int))
    (hclosed : (dirs.map fun d => (-d.1, d.2)).Perm dirs) :
    slider_mob (flipBoard b) fromSq c dirs =
      slider_mob b (fromSq ^^^ 56) (opposite c) dirs := by
  unfold slider_mob
  dsimp only
  have hdiv : ((fromSq ^^^ 56 : ℕ) : ℤ) / 8 = 7 - (fromSq : ℤ) / 8 := by
    have h1 := xor56_div fromSq h64
    have h2 := xor56_lt fromSq h64
    omega
  have hmod : ((fromSq ^^^ 56 : ℕ) : ℤ) % 8 = (fromSq : ℤ) % 8 := by
    have h1 := xor56_mod fromSq h64
    omega
  have hpt : ∀ d ∈ dirs,
      sliderMobAux (flipBoard b).squares c d.1 d.2 8
        ((fromSq : ℤ) / 8 + d.1) ((fromSq : ℤ) % 8 + d.2) =
      (fun d : Int × Int => sliderMobAux b.squares (opposite c) d.1 d.2 8
        (((fromSq ^^^ 56 : ℕ) : ℤ) / 8 + d.1)
        (((fromSq ^^^ 56 : ℕ) : ℤ) % 8 + d.2)) (-d.1, d.2) := by
    intro d hd
    dsimp only
    rw [sliderMobAux_flip b c d.1 d.2 8, hdiv, hmod,
      show (7 : ℤ) - ((fromSq : ℤ) / 8 + d.1) = 7 - (fromSq : ℤ) / 8 + -d.1 from by ring]
  calc (dirs.map fun d => sliderMobAux (flipBoard b).squares c d.1 d.2 8
        ((fromSq : ℤ) / 8 + d.1) ((fromSq : ℤ) % 8 + d.2)).sum
      = (dirs.map fun d => (fun d : Int × Int =>
          sliderMobAux b.squares (opposite c) d.1 d.2 8
            (((fromSq ^^^ 56 : ℕ) : ℤ) / 8 + d.1)
            (((fromSq ^^^ 56 : ℕ) : ℤ) % 8 + d.2)) (-d.1, d.2)).sum := by
        rw [List.map_congr_left hpt]
    _ = ((dirs.map fun d => (-d.1, d.2)).map fun d : Int × Int =>
          sliderMobAux b.squares (opposite c) d.1 d.2 8
            (((fromSq ^^^ 56 : ℕ) : ℤ) / 8 + d.1)
            (((fromSq ^^^ 56 : ℕ) : ℤ) % 8 + d.2)).sum := by
        rw [List.map_map]
        rfl
    _ = (dirs.map fun d : Int × Int =>
          sliderMobAux b.squares (opposite c) d.1 d.2 8
            (((fromSq ^^^ 56 : ℕ) : ℤ) / 8 + d.1)
            (((fromSq ^^^ 56 : ℕ) : ℤ) % 8 + d.2)).sum :=
        List.Perm.sum_eq (hclosed.map _)

set_option maxRecDepth 4000 in
theorem knight_closed : ((KNIGHT_DELTAS.map fun d => (-d.1, d.2)).Perm KNIGHT_DELTAS) := by
  decide

theorem bishop_closed : ((BISHOP_DIRS.map fun d => (-d.1, d.2)).Perm BISHOP_DIRS) := by
  decide

theorem rook_closed : ((ROOK_DIRS.map fun d => (-d.1, d.2)).Perm ROOK_DIRS) := by
  decide

theorem knight_mob_flip (b : Board) (sq : Nat) (c : Color) (h64 : sq < 64) :
    (KNIGHT_DELTAS.map fun d =>
      if 0 ≤ (sq : ℤ) / 8 + d.1 ∧ (sq : ℤ) / 8 + d.1 < 8 ∧
          0 ≤ (sq : ℤ) % 8 + d.2 ∧ (sq : ℤ) % 8 + d.2 < 8 then
        match getSq (flipBoard b).squares
            (((sq : ℤ) / 8 + d.1) * 8 + ((sq : ℤ) % 8 + d.2)).toNat with
        | some c2 => if c2.color ≠ c then (1 : Int) else 0
        | none => 1
      else 0).sum =
    (KNIGHT_DELTAS.map fun d =>
      if 0 ≤ ((sq ^^^ 56 : ℕ) : ℤ) / 8 + d.1 ∧ ((sq ^^^ 56 : ℕ) : ℤ) / 8 + d.1 < 8 ∧
          0 ≤ ((sq ^^^ 56 : ℕ) : ℤ) % 8 + d.2 ∧ ((sq ^^^ 56 : ℕ) : ℤ) % 8 + d.2 < 8 then
        match getSq b.squares
            ((((sq ^^^ 56 : ℕ) : ℤ) / 8 + d.1) * 8 +
              (((sq ^^^ 56 : ℕ) : ℤ) % 8 + d.2)).toNat with
        | some c2 => if c2.color ≠ opposite c then (1 : Int) else 0
        | none => 1
      else 0).sum := by
  have hdiv : ((sq ^^^ 56 : ℕ) : ℤ) / 8 = 7 - (sq : ℤ) / 8 := by
    have h1 := xor56_div sq h64
    have h2 := xor56_lt sq h64
    omega
  have hmod : ((sq ^^^ 56 : ℕ) : ℤ) % 8 = (sq : ℤ) % 8 := by
    have h1 := xor56_mod sq h64
    omega
  have hpt : ∀ d ∈ KNIGHT_DELTAS,
      (if 0 ≤ (sq : ℤ) / 8 + d.1 ∧ (sq : ℤ) / 8 + d.1 < 8 ∧
          0 ≤ (sq : ℤ) % 8 + d.2 ∧ (sq : ℤ) % 8 + d.2 < 8 then
        match getSq (flipBoard b).squares
            (((sq : ℤ) / 8 + d.1) * 8 + ((sq : ℤ) % 8 + d.2)).toNat with
        | some c2 => if c2.color ≠ c then (1 : Int) else 0
        | none => 1
      else 0) =
      (fun d : Int × Int =>
      if 0 ≤ 7 - (sq : ℤ) / 8 + d.1 ∧ 7 - (sq : ℤ) / 8 + d.1 < 8 ∧
          0 ≤ (sq : ℤ) % 8 + d.2 ∧ (sq : ℤ) % 8 + d.2 < 8 then
        match getSq b.squares
            ((7 - (sq : ℤ) / 8 + d.1) * 8 + ((sq : ℤ) % 8 + d.2)).toNat with
        | some c2 => if c2.color ≠ opposite c then (1 : Int) else 0
        | none => 1
      else 0) (-d.1, d.2) := by
    intro d hd
    dsimp only
    by_cases hbnd : 0 ≤ (sq : ℤ) / 8 + d.1 ∧ (sq : ℤ) / 8 + d.1 < 8 ∧
        0 ≤ (sq : ℤ) % 8 + d.2 ∧ (sq : ℤ) % 8 + d.2 < 8
    · have hbnd2 : 0 ≤ 7 - (sq : ℤ) / 8 + -d.1 ∧ 7 - (sq : ℤ) / 8 + -d.1 < 8 ∧
          0 ≤ (sq : ℤ) % 8 + d.2 ∧ (sq : ℤ) % 8 + d.2 < 8 := by omega
      rw [if_pos hbnd, if_pos hbnd2]
      have ht64 : (((sq : ℤ) / 8 + d.1) * 8 + ((sq : ℤ) % 8 + d.2)).toNat < 64 := by omega
      have hxor : (((sq : ℤ) / 8 + d.1) * 8 + ((sq : ℤ) % 8 + d.2)).toNat ^^^ 56 =
          ((7 - (sq : ℤ) / 8 + -d.1) * 8 + ((sq : ℤ) % 8 + d.2)).toNat := by
        have h1 : (((sq : ℤ) / 8 + d.1) * 8 + ((sq : ℤ) % 8 + d.2)).toNat =
            ((sq : ℤ) / 8 + d.1).toNat * 8 + ((sq : ℤ) % 8 + d.2).toNat := by omega
        have h2 : ((7 - (sq : ℤ) / 8 + -d.1) * 8 + ((sq : ℤ) % 8 + d.2)).toNat =
            (7 - ((sq : ℤ) / 8 + d.1).toNat) * 8 + ((sq : ℤ) % 8 + d.2).toNat := by omega
        rw [h1, h2]
        exact rowcol_xor56 _ (by omega) _ (by omega)
      rw [flipGet b _ ht64, hxor]
      rcases getSq b.squares
          (((7 - (sq : ℤ) / 8 + -d.1) * 8 + ((sq : ℤ) % 8 + d.2)).toNat) with _ | cp
      · simp only [Option.map_none']
      · simp only [Option.map_some']
        rcases cp with ⟨piece, pcolor⟩
        dsimp only
        have hiff : (opposite pcolor ≠ c) ↔ (pcolor ≠ opposite c) := by
          cases pcolor <;> cases c <;> simp [opposite]
        simp only [hiff]
    · have hbnd2 : ¬(0 ≤ 7 - (sq : ℤ) / 8 + -d.1 ∧ 7 - (sq : ℤ) / 8 + -d.1 < 8 ∧
          0 ≤ (sq : ℤ) % 8 + d.2 ∧ (sq : ℤ) % 8 + d.2 < 8) := by omega
      rw [if_neg hbnd, if_neg hbnd2]
  rw [List.map_congr_left hpt]
  simp only [hdiv, hmod]
  rw [show List.map (fun a : Int × Int => (fun d : Int × Int =>
      if 0 ≤ 7 - (sq : ℤ) / 8 + d.1 ∧ 7 - (sq : ℤ) / 8 + d.1 < 8 ∧
          0 ≤ (sq : ℤ) % 8 + d.2 ∧ (sq : ℤ) % 8 + d.2 < 8 then
        match getSq b.squares
            ((7 - (sq : ℤ) / 8 + d.1) * 8 + ((sq : ℤ) % 8 + d.2)).toNat with
        | some c2 => if c2.color ≠ opposite c then (1 : Int) else 0
        | none => (1 : Int)
      else (0 : Int)) (-a.1, a.2)) KNIGHT_DELTAS =
      List.map (fun d : Int × Int =>
      if 0 ≤ 7 - (sq : ℤ) / 8 + d.1 ∧ 7 - (sq : ℤ) / 8 + d.1 < 8 ∧
          0 ≤ (sq : ℤ) % 8 + d.2 ∧ (sq : ℤ) % 8 + d.2 < 8 then
        match getSq b.squares
            ((7 - (sq : ℤ) / 8 + d.1) * 8 + ((sq : ℤ) % 8 + d.2)).toNat with
        | some c2 => if c2.color ≠ opposite c then (1 : Int) else 0
        | none => (1 : Int)
      else (0 : Int)) (List.map (fun d : Int × Int => (-d.1, d.2)) KNIGHT_DELTAS) from by
    rw [List.map_map]
    rfl]
  exact List.Perm.sum_eq (knight_closed.map _)

theorem mobility_flip (b : Board) (c : Color) :
    mobility (flipBoard b) c = mobility b (opposite c) := by
  have h1 : ∀ sq ∈ Finset.range 64,
      (match getSq (flipBoard b).squares sq with
       | none => (0 : Int)
       | some cp =>
         if cp.color ≠ c then 0
         else
           match cp.piece with
           | Piece.Knight =>
             (KNIGHT_DELTAS.map fun d : Int × Int =>
               let fr : Int := sq / 8
               let ff : Int := sq % 8
               let tr := fr + d.1
               let tf := ff + d.2
               if 0 ≤ tr ∧ tr < 8 ∧ 0 ≤ tf ∧ tf < 8 then
                 match getSq (flipBoard b).squares (tr * 8 + tf).toNat with
                 | some c2 => if c2.color ≠ c then (1 : Int) else 0
                 | none => 1
               else 0).sum
           | Piece.Bishop => slider_mob (flipBoard b) sq c BISHOP_DIRS
           | Piece.Rook => slider_mob (flipBoard b) sq c ROOK_DIRS
           | Piece.Queen =>
               slider_mob (flipBoard b) sq c BISHOP_DIRS +
               slider_mob (flipBoard b) sq c ROOK_DIRS
           | _ => 0) =
      (fun sq =>
    (match getSq b.squares sq with
       | none => (0 : Int)
       | some cp =>
         if cp.color ≠ (opposite c) then 0
         else
           match cp.piece with
           | Piece.Knight =>
             (KNIGHT_DELTAS.map fun d : Int × Int =>
               let fr : Int := sq / 8
               let ff : Int := sq % 8
               let tr := fr + d.1
               let tf := ff + d.2
               if 0 ≤ tr ∧ tr < 8 ∧ 0 ≤ tf ∧ tf < 8 then
                 match getSq b.squares (tr * 8 + tf).toNat with
                 | some c2 => if c2.color ≠ (opposite c) then (1 : Int) else 0
                 | none => 1
               else 0).sum
           | Piece.Bishop => slider_mob b sq (opposite c) BISHOP_DIRS
           | Piece.Rook => slider_mob b sq (opposite c) ROOK_DIRS
           | Piece.Queen =>
               slider_mob b sq (opposite c) BISHOP_DIRS +
               slider_mob b sq (opposite c) ROOK_DIRS
           | _ => 0)) (sq ^^^ 56) := by
    intro sq hsq
    have h64 : sq < 64 := Finset.mem_range.1 hsq
    dsimp only
    rw [flipGet b sq h64]
    rcases getSq b.squares (sq ^^^ 56) with _ | cp
    · rfl
    · rcases cp with ⟨piece, color0⟩
      simp only [Option.map_some']
      have hiff : (opposite color0 ≠ c) ↔ (color0 ≠ opposite c) := by
        cases color0 <;> cases c <;> simp [opposite]
      by_cases hg : color0 ≠ opposite c
      · rw [if_pos (hiff.2 hg), if_pos hg]
      · rw [if_neg (fun h => hg (hiff.1 h)), if_neg hg]
        cases piece with
        | Pawn => rfl
        | Knight => exact knight_mob_flip b sq c h64
        | Bishop => exact slider_mob_flip b sq c h64 BISHOP_DIRS bishop_closed
        | Rook => exact slider_mob_flip b sq c h64 ROOK_DIRS rook_closed
        | Queen =>
          rw [slider_mob_flip b sq c h64 BISHOP_DIRS bishop_closed,
            slider_mob_flip b sq c h64 ROOK_DIRS rook_closed]
        | King => rfl
  exact (Finset.sum_congr rfl h1).trans (sum_flip (fun sq =>
    (match getSq b.squares sq with
       | none => (0 : Int)
       | some cp =>
         if cp.color ≠ (opposite c) then 0
         else
           match cp.piece with
           | Piece.Knight =>
             (KNIGHT_DELTAS.map fun d : Int × Int =>
               let fr : Int := sq / 8
               let ff : Int := sq % 8
               let tr := fr + d.1
               let tf := ff + d.2
               if 0 ≤ tr ∧ tr < 8 ∧ 0 ≤ tf ∧ tf < 8 then
                 match getSq b.squares (tr * 8 + tf).toNat with
                 | some c2 => if c2.color ≠ (opposite c) then (1 : Int) else 0
                 | none => 1
               else 0).sum
           | Piece.Bishop => slider_mob b sq (opposite c) BISHOP_DIRS
           | Piece.Rook => slider_mob b sq (opposite c) ROOK_DIRS
           | Piece.Queen =>
               slider_mob b sq (opposite c) BISHOP_DIRS +
               slider_mob b sq (opposite c) ROOK_DIRS
           | _ => 0)))

/-- Full-evaluation mirror symmetry: with at most one king per colour the
evaluation is invariant (with a *plus* sign) under colour-swap + vertical
flip + side-to-move flip. -/
theorem evaluate_flip (b : Board) (hW : kingUnique b Color.White)
    (hB : kingUnique b Color.Black) :
    evaluate (flipBoard b) = evaluate b := by
  unfold evaluate
  dsimp only
  rw [game_phase_flip]
  have hps1 : pawn_structure (flipBoard b) Color.White = pawn_structure b Color.Black :=
    pawn_structure_flip b Color.White
  have hps2 : pawn_structure (flipBoard b) Color.Black = pawn_structure b Color.White :=
    pawn_structure_flip b Color.Black
  have hks1 : king_safety (flipBoard b) Color.White (game_phase b) =
      king_safety b Color.Black (game_phase b) :=
    king_safety_flip b Color.White (game_phase b) hB
  have hks2 : king_safety (flipBoard b) Color.Black (game_phase b) =
      king_safety b Color.White (game_phase b) :=
    king_safety_flip b Color.Black (game_phase b) hW
  have hbp1 : bishop_pair (flipBoard b) Color.White = bishop_pair b Color.Black :=
    bishop_pair_flip b Color.White
  have hbp2 : bishop_pair (flipBoard b) Color.Black = bishop_pair b Color.White :=
    bishop_pair_flip b Color.Black
  have hrb1 : rook_bonus (flipBoard b) Color.White = rook_bonus b Color.Black :=
    rook_bonus_flip b Color.White
  have hrb2 : rook_bonus (flipBoard b) Color.Black = rook_bonus b Color.White :=
    rook_bonus_flip b Color.Black
  have hmob1 : mobility (flipBoard b) Color.White = mobility b Color.Black :=
    mobility_flip b Color.White
  have hmob2 : mobility (flipBoard b) Color.Black = mobility b Color.White :=
    mobility_flip b Color.Black
  rw [hps1, hps2, hks1, hks2, hbp1, hbp2, hrb1, hrb2, hmob1, hmob2,
    base_flip b (game_phase b)]
  have hside : (flipBoard b).side = opposite b.side := rfl
  rw [hside]
  rcases b.side with _ | _
  · rw [if_neg (by decide : ¬(opposite Color.White = Color.White)), if_pos rfl]
    ring
  · rw [if_pos (by decide : opposite Color.Black = Color.White),
      if_neg (by decide : ¬(Color.Black = Color.White))]
    ring

set_option maxRecDepth 10000 in
/-- **C5 counterexample.**  The spec claims `evaluate(P) = -evaluate(P')` for
the colour-swapped, vertically flipped, side-flipped `P'`; on the queen-up
`qBoard` both sides evaluate to the same non-zero score, so the sign is
wrong. -/
theorem claim_C5_counterexample :
    evaluate (flipBoard qBoard) ≠ -evaluate qBoard := by decide

/-- **C5 (amended).**  With at most one king per colour (true of every legal
position), the transformation `P ↦ P'` preserves `evaluate` *exactly, with a
plus sign*: `evaluate(P') = evaluate(P)`. -/
theorem claim_C5_amended (b : Board) (hW : kingUnique b Color.White)
    (hB : kingUnique b Color.Black) :
    evaluate (flipBoard b) = evaluate b :=
  evaluate_flip b hW hB

set_option maxRecDepth 10000 in
theorem claim_C5_amended_witness :
    kingUnique qBoard Color.White ∧ kingUnique qBoard Color.Black ∧
      evaluate (flipBoard qBoard) = evaluate qBoard :=
  ⟨by decide, by decide, claim_C5_amended qBoard (by decide) (by decide)⟩

end AbhinEngine
